import Mathlib

/-!
Verification of the Node.js binding generator (`src/capi/bind_gen/src/node.rs`)
of livesplit-core.  The generator turns a model of classes and functions into
JavaScript / TypeScript wrapper source text.  We embed the emitter shallowly:
every `write!` call of the Rust source becomes one string chunk, emitted in the
same order, and the final output is the concatenation of the chunks.
-/

set_option maxRecDepth 10000

namespace NodeBindGen

/-- `TypeKind` from the collector model (borrow category of a type). -/
inductive TypeKind
  | Ref
  | RefMut
  | Value
deriving DecidableEq

/-- The `Type` descriptor of the collector model (Rust struct `Type`; renamed
`Ty` because `Type` is a Lean universe). -/
structure Ty where
  kind : TypeKind
  name : String
  is_custom : Bool
  is_nullable : Bool
deriving DecidableEq

/-- The `Function` descriptor of the collector model: native entry-point name,
host-facing method name, ordered inputs and the output type. -/
structure Function where
  name : String
  method : String
  inputs : List (String × Ty)
  output : Ty
deriving DecidableEq

/-- Modelled from the spec: "a function is static iff it has no leading
parameter literally named `this`" (the Rust `Function::is_static` lives in
the crate root, which is not under `src/`). -/
def Function.is_static (f : Function) : Bool :=
  match f.inputs with
  | [] => true
  | (n, _) :: _ => n ≠ "this"

/-- Modelled from the spec: "a function has a return value iff output is not
the unit/void type" (the Rust `Function::has_return_type` lives in the crate
root, which is not under `src/`); the unit type is the primitive named `()`. -/
def Function.has_return_type (f : Function) : Bool :=
  f.output.name ≠ "()"

/-- The `Class` record of the collector model: the four receiver-category
function lists.  The class name is the key of the surrounding sorted map. -/
structure Class where
  static_fns : List Function
  own_fns : List Function
  shared_fns : List Function
  mut_fns : List Function
deriving DecidableEq

/-! ### Mixed-case conversion (external `heck` crate)

The generator calls `to_mixed_case` from the external `heck` crate on every
parameter and method name.  Modelled from the spec / heck's documented
behavior on snake_case identifiers: split the name into alphanumeric words,
lowercase the first word, capitalize the following ones. -/

/-- ASCII lowercase of one character (identity outside `A`–`Z`). -/
def asciiLower (c : Char) : Char :=
  match c with
  | 'A' => 'a' | 'B' => 'b' | 'C' => 'c' | 'D' => 'd' | 'E' => 'e' | 'F' => 'f'
  | 'G' => 'g' | 'H' => 'h' | 'I' => 'i' | 'J' => 'j' | 'K' => 'k' | 'L' => 'l'
  | 'M' => 'm' | 'N' => 'n' | 'O' => 'o' | 'P' => 'p' | 'Q' => 'q' | 'R' => 'r'
  | 'S' => 's' | 'T' => 't' | 'U' => 'u' | 'V' => 'v' | 'W' => 'w' | 'X' => 'x'
  | 'Y' => 'y' | 'Z' => 'z' | c => c

/-- ASCII uppercase of one character (identity outside `a`–`z`). -/
def asciiUpper (c : Char) : Char :=
  match c with
  | 'a' => 'A' | 'b' => 'B' | 'c' => 'C' | 'd' => 'D' | 'e' => 'E' | 'f' => 'F'
  | 'g' => 'G' | 'h' => 'H' | 'i' => 'I' | 'j' => 'J' | 'k' => 'K' | 'l' => 'L'
  | 'm' => 'M' | 'n' => 'N' | 'o' => 'O' | 'p' => 'P' | 'q' => 'Q' | 'r' => 'R'
  | 's' => 'S' | 't' => 'T' | 'u' => 'U' | 'v' => 'V' | 'w' => 'W' | 'x' => 'X'
  | 'y' => 'Y' | 'z' => 'Z' | c => c

/-- Splits a character list into its maximal alphanumeric runs, dropping
separator characters. -/
def alnumWordsAux (cur : List Char) : List Char → List (List Char)
  | [] => if cur = [] then [] else [cur.reverse]
  | c :: cs =>
    if c.isAlphanum then alnumWordsAux (c :: cur) cs
    else if cur = [] then alnumWordsAux [] cs
    else cur.reverse :: alnumWordsAux [] cs

/-- Capitalizes a word: uppercase first character, lowercase the rest. -/
def capitalizeWord : List Char → List Char
  | [] => []
  | c :: cs => asciiUpper c :: cs.map asciiLower

/-- Modelled from the spec: `heck::MixedCase` conversion (`to_mixed_case`),
external to this repository.  Words of the identifier are joined in
lowerCamelCase. -/
def toMixedCase (s : String) : String :=
  match alnumWordsAux [] s.data with
  | [] => ""
  | w :: ws => String.mk (w.map asciiLower ++ (ws.map capitalizeWord).flatten)

/-! ### The type mapper (`node.rs` lines 6–75) -/

/-- `get_hl_type_without_null` (`node.rs` lines 14–48): host-level type name.
For custom types the owning/view class name; otherwise the fixed primitive
table, with `Ref`/`RefMut` of non-custom types mapping to `string`/`Buffer`
first, and a final `x => x` fall-through inside the primitive table. -/
def get_hl_type_without_null (ty : Ty) : String :=
  if ty.is_custom then
    match ty.kind with
    | TypeKind.Ref => ty.name ++ "Ref"
    | TypeKind.RefMut => ty.name ++ "RefMut"
    | TypeKind.Value => ty.name
  else
    match ty.kind, ty.name with
    | TypeKind.Ref, "c_char" => "string"
    | TypeKind.Ref, _ => "Buffer"
    | TypeKind.RefMut, _ => "Buffer"
    | TypeKind.Value, t =>
      match t with
      | "i8" => "number"
      | "i16" => "number"
      | "i32" => "number"
      | "i64" => "number"
      | "u8" => "number"
      | "u16" => "number"
      | "u32" => "number"
      | "u64" => "number"
      | "usize" => "number"
      | "f32" => "number"
      | "f64" => "number"
      | "bool" => "boolean"
      | "()" => "void"
      | "c_char" => "string"
      | "Json" => "any"
      | x => x

/-- `get_hl_type_with_null` (`node.rs` lines 6–12): appends `" | null"` when
the type is nullable. -/
def get_hl_type_with_null (ty : Ty) : String :=
  get_hl_type_without_null ty ++ (if ty.is_nullable then " | null" else "")

/-- `get_ll_type` (`node.rs` lines 50–75): the low-level ABI tag.  The source
match arms in order: `(Ref, "c_char") | (_, "Json")` give the C-string tag,
any other `Ref`/`RefMut` the pointer tag, then `( _, t) if !ty.is_custom`
enters the primitive table (with an `x => x` fall-through), and the final
`_ => "'pointer'"` catch-all is reached exactly by the remaining custom
`Value` types. -/
def get_ll_type (ty : Ty) : String :=
  match ty.kind, ty.name with
  | TypeKind.Ref, "c_char" => "\x27CString\x27"
  | _, "Json" => "\x27CString\x27"
  | TypeKind.Ref, _ => "\x27pointer\x27"
  | TypeKind.RefMut, _ => "\x27pointer\x27"
  | TypeKind.Value, t =>
    if ty.is_custom then "\x27pointer\x27"
    else
      match t with
      | "i8" => "\x27int8\x27"
      | "i16" => "\x27int16\x27"
      | "i32" => "\x27int32\x27"
      | "i64" => "\x27int64\x27"
      | "u8" => "\x27uint8\x27"
      | "u16" => "\x27uint16\x27"
      | "u32" => "\x27uint32\x27"
      | "u64" => "\x27uint64\x27"
      | "usize" => "\x27size_t\x27"
      | "f32" => "\x27float\x27"
      | "f64" => "\x27double\x27"
      | "bool" => "\x27bool\x27"
      | "()" => "\x27void\x27"
      | "c_char" => "\x27char\x27"
      | x => x

/-- The closed primitive name set of the spec's type universe. -/
def primNames : List String :=
  ["i8", "i16", "i32", "i64", "u8", "u16", "u32", "u64", "usize",
   "f32", "f64", "bool", "()", "c_char"]

/-- The spec's closed type universe: custom types, the fixed primitive name
set, and the `Json` pseudo-type. -/
def InUniverse (ty : Ty) : Prop :=
  ty.is_custom = true ∨ ty.name ∈ primNames ∨ ty.name = "Json"

instance (ty : Ty) : Decidable (InUniverse ty) := by
  unfold InUniverse; infer_instance

/-- Whether the `x => x` fall-through arm of `get_hl_type_without_null`'s
primitive table fires: reached for a non-custom `Value`-kind type whose name
is outside the table. -/
def hl_fallthrough_taken (ty : Ty) : Bool :=
  !ty.is_custom && ty.kind == TypeKind.Value &&
    !(primNames.contains ty.name || ty.name == "Json")

/-- Whether the `_ => unreachable!()` arm of `get_hl_type_without_null`
fires: the third arm's guard `!ty.is_custom` always holds in the non-custom
branch, so this is reached for no input at all. -/
def hl_unreachable_taken (ty : Ty) : Bool :=
  !ty.is_custom && !(ty.kind == TypeKind.Ref && ty.name == "c_char") &&
    !(ty.kind == TypeKind.Ref) && !(ty.kind == TypeKind.RefMut) &&
    !(!ty.is_custom)

/-- Whether the final `_ => "'pointer'"` catch-all arm of `get_ll_type`
fires: reached exactly when the first three arms fail, i.e. for a custom
`Value`-kind type not named `Json`. -/
def ll_default_taken (ty : Ty) : Bool :=
  !(ty.kind == TypeKind.Ref && ty.name == "c_char") && !(ty.name == "Json") &&
    !(ty.kind == TypeKind.Ref) && !(ty.kind == TypeKind.RefMut) &&
    ty.is_custom

/-- Whether the `x => x` fall-through arm inside `get_ll_type`'s primitive
table fires: a non-custom `Value`-kind type whose name is outside the table
(`Json` never reaches the table, being caught by the first arm). -/
def ll_fallthrough_taken (ty : Ty) : Bool :=
  !(ty.kind == TypeKind.Ref && ty.name == "c_char") && !(ty.name == "Json") &&
    !(ty.kind == TypeKind.Ref) && !(ty.kind == TypeKind.RefMut) &&
    !ty.is_custom && !(primNames.contains ty.name)

/-! ### The function emitter (`write_fn`, `node.rs` lines 77–249)

Each `write!` call of the Rust source becomes one chunk, in source order;
`writeFn` is the concatenation. -/

/-- One `@param` line of the documentation block (`node.rs` lines 92–100). -/
def docParamChunk (name : String) (ty : Ty) : String :=
  "\n     * @param \x7b" ++ get_hl_type_with_null ty ++ "\x7d " ++ toMixedCase name

/-- The documentation block emitted before a method in documented (non
TypeScript) mode (`node.rs` lines 85–116). -/
def docChunks (f : Function) : List String :=
  ["\n    /**"]
    ++ (f.inputs.drop (if f.is_static then 0 else 1)).map
        (fun p => docParamChunk p.1 p.2)
    ++ (if f.has_return_type then
          ["\n     * @return \x7b" ++ get_hl_type_with_null f.output ++ "\x7d"]
        else [])
    ++ ["\n     */"]

/-- The method-signature opener (`node.rs` lines 118–124). -/
def sigOpenChunk (f : Function) : String :=
  "\n    " ++ (if f.is_static then "static " else "") ++ toMixedCase f.method ++ "("

/-- The parameter list of the signature (`node.rs` lines 126–139): a `", "`
separator before every parameter but the first, the mixed-case name, and in
TypeScript mode the `": <type>"` annotation. -/
def paramChunksAux (ts : Bool) : Nat → List (String × Ty) → List String
  | _, [] => []
  | i, (n, ty) :: rest =>
    ((if i ≠ 0 then [", "] else []) ++ [toMixedCase n]
      ++ (if ts then [": " ++ get_hl_type_with_null ty] else []))
      ++ paramChunksAux ts (i + 1) rest

/-- The signature closer (`node.rs` lines 141–154): with the return-type
annotation in TypeScript mode when the function has a return value. -/
def sigCloseChunk (f : Function) (ts : Bool) : String :=
  if ts && f.has_return_type then
    "): " ++ get_hl_type_with_null f.output ++ " \x7b\n        "
  else
    ") \x7b\n        "

/-- The disposal check emitted for one custom-typed input, naming the
parameter (`node.rs` lines 158–165). -/
def mkCheck (n : String) : String :=
  "if (ref.isNull(" ++ n ++ ".ptr)) \x7b\n            throw \"" ++ n
    ++ " is disposed\";\n        \x7d\n        "

/-- The disposal checks of all custom-typed inputs, in declaration order
(`node.rs` lines 156–167). -/
def disposalChecks (f : Function) : List String :=
  f.inputs.filterMap
    (fun p => if p.2.is_custom then some (mkCheck (toMixedCase p.1)) else none)

/-- The result binding opened before the native call (`node.rs` lines
169–175): a constructor invocation of the host-level return class for custom
outputs, a plain binding otherwise, nothing for void functions. -/
def resultOpenChunks (f : Function) : List String :=
  if f.has_return_type then
    if f.output.is_custom then
      ["var result = new " ++ get_hl_type_without_null f.output ++ "("]
    else
      ["var result = "]
  else []

/-- The native call expression opener (`node.rs` line 177). -/
def callChunk (f : Function) : String :=
  "liveSplitCoreNative." ++ f.name ++ "("

/-- The argument translation of one input (`node.rs` lines 183–195). -/
def argExpr (n : String) (ty : Ty) : String :=
  if n = "this" then "this.ptr"
  else if ty.name = "Json" then "JSON.stringify(" ++ toMixedCase n ++ ")"
  else if ty.is_custom then toMixedCase n ++ ".ptr"
  else toMixedCase n

/-- The call's argument list (`node.rs` lines 179–196). -/
def argChunksAux : Nat → List (String × Ty) → List String
  | _, [] => []
  | i, (n, ty) :: rest =>
    ((if i ≠ 0 then [", "] else []) ++ [argExpr n ty]) ++ argChunksAux (i + 1) rest

/-- The extra closing parenthesis of the constructor wrap (`node.rs` lines
200–202). -/
def resultCloseChunks (f : Function) : List String :=
  if f.has_return_type && f.output.is_custom then [")"] else []

/-- The handle-nulling statement for one fully-transferred argument
(`node.rs` lines 208–213). -/
def mkNulling (n : String) : String :=
  "\n        " ++ n ++ ".ptr = ref.NULL;"

/-- The ownership finalization (`node.rs` lines 206–215): after the call,
null the handle of every input of custom type and `Value` kind. -/
def handleNulling (f : Function) : List String :=
  f.inputs.filterMap
    (fun p =>
      if p.2.is_custom && p.2.kind == TypeKind.Value then
        some (mkNulling (toMixedCase p.1))
      else none)

/-- The nullable-result check emitted after the call (`node.rs` lines
219–225). -/
def resNullCheckChunk : String :=
  "\n        if (ref.isNull(result.ptr)) \x7b\n            return null;\n        \x7d"

/-- The result finalization (`node.rs` lines 217–240): the nullable-custom
null check, then the return statement (JSON deserialization for the `Json`
pseudo-type). -/
def resultFinish (f : Function) : List String :=
  if f.has_return_type then
    (if f.output.is_nullable && f.output.is_custom then [resNullCheckChunk] else [])
      ++ [if f.output.name = "Json" then
            "\n        return JSON.parse(result);"
          else
            "\n        return result;"]
  else []

/-- The method closer (`node.rs` lines 242–246). -/
def fnEndChunk : String :=
  "\n    \x7d"

/-- `write_fn` (`node.rs` lines 77–249) as its ordered list of emitted
chunks. -/
def writeFnChunks (f : Function) (ts : Bool) : List String :=
  (if ts then [] else docChunks f)
    ++ [sigOpenChunk f]
    ++ paramChunksAux ts 0 (f.inputs.drop (if f.is_static then 0 else 1))
    ++ [sigCloseChunk f ts]
    ++ disposalChecks f
    ++ resultOpenChunks f
    ++ [callChunk f]
    ++ argChunksAux 0 f.inputs
    ++ [")"]
    ++ resultCloseChunks f
    ++ [";"]
    ++ handleNulling f
    ++ resultFinish f
    ++ [fnEndChunk]

/-- Concatenation of an ordered chunk list into the output text. -/
def concatChunks : List String → String
  | [] => ""
  | s :: rest => s ++ concatChunks rest

/-- The text emitted by `write_fn` for one function. -/
def writeFn (f : Function) (ts : Bool) : String :=
  concatChunks (writeFnChunks f ts)

/-! ### The module writer (`write`, `node.rs` lines 251–575) -/

/-- Modelled from the spec: the `typescript::HEADER` constant (its source
file `typescript.rs` is not under `src/`): the block of interface
declarations emitted after the import lines in typed mode.  Its exact
contents are irrelevant to every claim; it is a fixed string. -/
def typescriptHEADER : String :=
  "export type ComponentStateJson = any;"

/-- The module header (`node.rs` lines 256–280): `use strict`, the import /
require declarations, in typed mode the `typescript::HEADER` block, then the
opener of the native-library binding table. -/
def moduleHeaderChunk (ts : Bool) : String :=
  if ts then
    "\"use strict\";\nimport ffi = require(\x27ffi\x27);\nimport fs = require(\x27fs\x27);\nimport ref = require(\x27ref\x27);\n\n"
      ++ typescriptHEADER
      ++ "\n\nvar liveSplitCoreNative = ffi.Library(\x27livesplit_core\x27, \x7b"
  else
    "\"use strict\";\nvar ffi = require(\x27ffi\x27);\nvar fs = require(\x27fs\x27);\nvar ref = require(\x27ref\x27);\n\nvar liveSplitCoreNative = ffi.Library(\x27livesplit_core\x27, \x7b"

/-- The fixed per-class function order of the binding table (`node.rs` lines
283–289): static, own, shared, mut. -/
def classAllFns (c : Class) : List Function :=
  c.static_fns ++ c.own_fns ++ c.shared_fns ++ c.mut_fns

/-- The ABI-tag argument list of one binding entry (`node.rs` lines
298–303). -/
def llArgChunksAux : Nat → List (String × Ty) → List String
  | _, [] => []
  | i, (_, ty) :: rest =>
    ((if i ≠ 0 then [", "] else []) ++ [get_ll_type ty]) ++ llArgChunksAux (i + 1) rest

/-- One entry of the native-library binding table (`node.rs` lines
290–305): the native entry-point name paired with `[returnTag, [argTags]]`. -/
def bindingEntryChunks (f : Function) : List String :=
  ["\n    \x27" ++ f.name ++ "\x27: [" ++ get_ll_type f.output ++ ", ["]
    ++ llArgChunksAux 0 f.inputs ++ ["]],"]

/-- The whole binding table including its closing `});` line (`node.rs`
lines 282–314).  It does not depend on the output mode. -/
def bindingChunks (m : List (String × Class)) : List String :=
  (m.map (fun p => ((classAllFns p.2).map bindingEntryChunks).flatten)).flatten
    ++ ["\n\x7d);\n"]

/-- The `XRef` class header (`node.rs` lines 320–327). -/
def refHeaderChunk (X : String) (ts : Bool) : String :=
  "\n" ++ (if ts then "export " else "") ++ "class " ++ X ++ "Ref \x7b"

/-- The typed-mode-only `ptr` field declaration (`node.rs` lines 329–334). -/
def ptrFieldChunks (ts : Bool) : List String :=
  if ts then ["\n    ptr: Buffer;"] else []

/-- The `readWith`/`writeWith` convenience block of `SharedTimerRef` in
typed mode (`node.rs` lines 341–356). -/
def sharedTimerBlockTs : String :=
  "\n    readWith(action: (timer: TimerRef) => void) \x7b\n        this.read().with(function (lock) \x7b\n            action(lock.timer());\n        \x7d);\n    \x7d\n    writeWith(action: (timer: TimerRefMut) => void) \x7b\n        this.write().with(function (lock) \x7b\n            action(lock.timer());\n        \x7d);\n    \x7d"

/-- The `readWith`/`writeWith` convenience block of `SharedTimerRef` in
documented mode (`node.rs` lines 357–379). -/
def sharedTimerBlockJs : String :=
  "\n    /**\n     * @param \x7bfunction(TimerRef)\x7d action\n     */\n    readWith(action) \x7b\n        this.read().with(function (lock) \x7b\n            action(lock.timer());\n        \x7d);\n    \x7d\n    /**\n     * @param \x7bfunction(TimerRefMut)\x7d action\n     */\n    writeWith(action) \x7b\n        this.write().with(function (lock) \x7b\n            action(lock.timer());\n        \x7d);\n    \x7d"

/-- The name-keyed `SharedTimer` extension (`node.rs` lines 340–380). -/
def sharedTimerExtra (X : String) (ts : Bool) : List String :=
  if X = "SharedTimer" then [if ts then sharedTimerBlockTs else sharedTimerBlockJs]
  else []

/-- The constructor opener of `XRef` (`node.rs` lines 382–397). -/
def ctorOpenChunk (ts : Bool) : String :=
  if ts then "\n    constructor(ptr: Buffer) \x7b"
  else "\n    /**\n     * @param \x7bBuffer\x7d ptr\n     */\n    constructor(ptr) \x7b"

/-- The constructor body, the end of `XRef`, the export of `XRef` (in
documented mode) and the `XRefMut` class header (`node.rs` lines 399–419). -/
def refMutHeaderChunk (X : String) (ts : Bool) : String :=
  "\n        this.ptr = ptr;\n    \x7d\n\x7d\n"
    ++ (if ts then "\nexport "
        else "exports." ++ X ++ "Ref = " ++ X ++ "Ref;\n\n")
    ++ "class " ++ X ++ "RefMut extends " ++ X ++ "Ref \x7b"

/-- The end of `XRefMut`, its export (in documented mode) and the owning
class header (`node.rs` lines 425–443). -/
def ownHeaderChunk (X : String) (ts : Bool) : String :=
  "\n\x7d\n"
    ++ (if ts then "\nexport "
        else "exports." ++ X ++ "RefMut = " ++ X ++ "RefMut;\n\n")
    ++ "class " ++ X ++ " extends " ++ X ++ "RefMut \x7b"

/-- The `with` scoped-use opener (`node.rs` lines 445–462). -/
def withOpenChunk (X : String) (ts : Bool) : String :=
  if ts then "\n    with(closure: (obj: " ++ X ++ ") => void) \x7b"
  else
    "\n    /**\n     * @param \x7bfunction(" ++ X
      ++ ")\x7d closure\n     */\n    with(closure) \x7b"

/-- The `with` body (try/finally dispose) and the guarded opener of
`dispose` (`node.rs` lines 464–475). -/
def withDisposeOpenChunk : String :=
  "\n        try \x7b\n            closure(this);\n        \x7d finally \x7b\n            this.dispose();\n        \x7d\n    \x7d\n    dispose() \x7b\n        if (!ref.isNull(this.ptr)) \x7b"

/-- The native destructor invocation inside `dispose`, emitted only when the
class declares an `own_fns` function with method name `drop` (`node.rs`
lines 477–484). -/
def dropCallChunks (c : Class) : List String :=
  match c.own_fns.find? (fun f => f.method = "drop") with
  | some f => ["\n            liveSplitCoreNative." ++ f.name ++ "(this.ptr);"]
  | none => []

/-- The handle nulling and closer of `dispose` (`node.rs` lines 486–492). -/
def disposeCloseChunk : String :=
  "\n            this.ptr = ref.NULL;\n        \x7d\n    \x7d"

/-- The owning tier's methods (`node.rs` lines 494–498): `static_fns` then
`own_fns`, skipping the `drop` destructor. -/
def ownTierFns (c : Class) : List Function :=
  (c.static_fns ++ c.own_fns).filter (fun f => f.method ≠ "drop")

/-- The `parseArray`/`parseFile`/`parseString` factories of `Run` in typed
mode (`node.rs` lines 501–521). -/
def runBlockTs : String :=
  "\n    static parseArray(data: Int8Array): Run \x7b\n        var buf = Buffer.from(data.buffer);\n        if (data.byteLength !== data.buffer.byteLength) \x7b\n            buf = buf.slice(data.byteOffset, data.byteOffset + data.byteLength);\n        \x7d\n        return Run.parse(buf, buf.byteLength);\n    \x7d\n    static parseFile(file: any) \x7b\n        var data = fs.readFileSync(file);\n        return Run.parse(data, data.byteLength);\n    \x7d\n    static parseString(text: string): Run \x7b\n        let data = new Buffer(text);\n        return Run.parse(data, data.byteLength);\n    \x7d"

/-- The `parseArray`/`parseFile`/`parseString` factories of `Run` in
documented mode (`node.rs` lines 522–555).  Note that the source emits
TypeScript annotations (`file: any`, `text: string): Run`) here although
this is the plain-JavaScript branch. -/
def runBlockJs : String :=
  "\n    /**\n     * @param \x7bInt8Array\x7d data\n     * @return \x7bRun\x7d\n     */\n    static parseArray(data) \x7b\n        var buf = Buffer.from(data.buffer);\n        if (data.byteLength !== data.buffer.byteLength) \x7b\n            buf = buf.slice(data.byteOffset, data.byteOffset + data.byteLength);\n        \x7d\n        return Run.parse(buf, buf.byteLength);\n    \x7d\n    /**\n     * @param \x7bstring | Buffer | number\x7d file\n     * @return \x7bRun\x7d\n     */\n    static parseFile(file: any) \x7b\n        var data = fs.readFileSync(file);\n        return Run.parse(data, data.byteLength);\n    \x7d\n    /**\n     * @param \x7bstring\x7d text\n     * @return \x7bRun\x7d\n     */\n    static parseString(text: string): Run \x7b\n        let data = new Buffer(text);\n        return Run.parse(data, data.byteLength);\n    \x7d"

/-- The name-keyed `Run` extension (`node.rs` lines 500–556). -/
def runExtra (X : String) (ts : Bool) : List String :=
  if X = "Run" then [if ts then runBlockTs else runBlockJs] else []

/-- The end of the owning class and, in documented mode, its export
(`node.rs` lines 558–571, a `writeln!`, hence the trailing newline). -/
def classFooterChunk (X : String) (ts : Bool) : String :=
  "\n\x7d" ++ (if ts then "" else "\nexports." ++ X ++ " = " ++ X ++ ";") ++ "\n"

/-- The three-tier hierarchy emitted for one class (`node.rs` lines
316–572), as its ordered chunk list. -/
def writeClassChunks (X : String) (c : Class) (ts : Bool) : List String :=
  [refHeaderChunk X ts]
    ++ ptrFieldChunks ts
    ++ (c.shared_fns.map (fun f => writeFnChunks f ts)).flatten
    ++ sharedTimerExtra X ts
    ++ [ctorOpenChunk ts, refMutHeaderChunk X ts]
    ++ (c.mut_fns.map (fun f => writeFnChunks f ts)).flatten
    ++ [ownHeaderChunk X ts, withOpenChunk X ts, withDisposeOpenChunk]
    ++ dropCallChunks c
    ++ [disposeCloseChunk]
    ++ ((ownTierFns c).map (fun f => writeFnChunks f ts)).flatten
    ++ runExtra X ts
    ++ [classFooterChunk X ts]

/-- `write` (`node.rs` lines 251–575) as its ordered chunk list.  The
`BTreeMap` of classes is modelled as its sorted-by-key association list. -/
def writeChunks (m : List (String × Class)) (ts : Bool) : List String :=
  [moduleHeaderChunk ts]
    ++ bindingChunks m
    ++ (m.map (fun p => writeClassChunks p.1 p.2 ts)).flatten

/-- The full output text of the module writer. -/
def write (m : List (String × Class)) (ts : Bool) : String :=
  concatChunks (writeChunks m ts)

/-! ### Substring and character-class infrastructure -/

/-- `needle` occurs as contiguous text inside `hay`. -/
def Substr (needle hay : String) : Prop :=
  needle.data <:+: hay.data

instance (n h : String) : Decidable (Substr n h) := by
  unfold Substr; infer_instance

theorem substr_of_prefix_drop {n h : String} (k : Nat)
    (hp : n.data <+: h.data.drop k) : Substr n h := by
  obtain ⟨t, ht⟩ := hp
  refine ⟨h.data.take k, t, ?_⟩
  rw [List.append_assoc, ht]
  exact List.take_append_drop k h.data

theorem substr_of_mem_concat {c : String} {L : List String} (h : c ∈ L) :
    Substr c (concatChunks L) := by
  induction L with
  | nil => cases h
  | cons s rest ih =>
    rcases List.mem_cons.mp h with rfl | h
    · exact ⟨[], (concatChunks rest).data, by simp [concatChunks, String.data_append]⟩
    · obtain ⟨u, v, huv⟩ := ih h
      exact ⟨s.data ++ u, v, by simp [concatChunks, String.data_append, ← huv]⟩

theorem asciiLower_alnum {c : Char} (h : c.isAlphanum = true) :
    (asciiLower c).isAlphanum = true := by
  unfold asciiLower
  split <;> first | rfl | exact h

theorem asciiUpper_alnum {c : Char} (h : c.isAlphanum = true) :
    (asciiUpper c).isAlphanum = true := by
  unfold asciiUpper
  split <;> first | rfl | exact h

theorem capitalizeWord_alnum {w : List Char} (h : ∀ c ∈ w, c.isAlphanum = true) :
    ∀ c ∈ capitalizeWord w, c.isAlphanum = true := by
  cases w with
  | nil => intro c hc; cases hc
  | cons a rest =>
    intro c hc
    rcases List.mem_cons.mp hc with rfl | hc
    · exact asciiUpper_alnum (h a (List.mem_cons_self a rest))
    · obtain ⟨d, hd, rfl⟩ := List.mem_map.mp hc
      exact asciiLower_alnum (h d (List.mem_cons_of_mem a hd))

theorem alnumWordsAux_alnum :
    ∀ (l cur : List Char), (∀ c ∈ cur, c.isAlphanum = true) →
      ∀ w ∈ alnumWordsAux cur l, ∀ c ∈ w, c.isAlphanum = true := by
  intro l
  induction l with
  | nil =>
    intro cur hcur w hw
    unfold alnumWordsAux at hw
    split at hw
    · cases hw
    · rcases List.mem_singleton.mp hw with rfl
      intro c hc
      exact hcur c (List.mem_reverse.mp hc)
  | cons a rest ih =>
    intro cur hcur w hw
    unfold alnumWordsAux at hw
    split at hw
    · refine ih (a :: cur) ?_ w hw
      intro c hc
      rcases List.mem_cons.mp hc with rfl | hc
      · assumption
      · exact hcur c hc
    · split at hw
      · exact ih [] (by intro c hc; cases hc) w hw
      · rcases List.mem_cons.mp hw with rfl | hw
        · intro c hc
          exact hcur c (List.mem_reverse.mp hc)
        · exact ih [] (by intro c hc; cases hc) w hw

theorem toMixedCase_alnum (s : String) :
    ∀ c ∈ (toMixedCase s).data, c.isAlphanum = true := by
  unfold toMixedCase
  rcases hw : alnumWordsAux [] s.data with _ | ⟨w, ws⟩
  · intro c hc; cases hc
  · intro c hc
    have hwords := alnumWordsAux_alnum s.data [] (by intro c hc; cases hc)
    rcases List.mem_append.mp hc with hc | hc
    · obtain ⟨d, hd, rfl⟩ := List.mem_map.mp hc
      exact asciiLower_alnum (hwords w (by rw [hw]; exact List.mem_cons_self w ws) d hd)
    · obtain ⟨u, hu, hcu⟩ := List.mem_flatten.mp hc
      obtain ⟨v, hv, rfl⟩ := List.mem_map.mp hu
      refine capitalizeWord_alnum ?_ c hcu
      exact hwords v (by rw [hw]; exact List.mem_cons_of_mem w hv)

theorem toMixedCase_not_mem {s : String} {c : Char} (hc : c.isAlphanum = false) :
    c ∉ (toMixedCase s).data := by
  intro h
  have := toMixedCase_alnum s c h
  rw [hc] at this
  cases this

/-! ### Claim C8: totality of the type mappers over the closed universe -/

/-- A custom `Value`-kind type inside the closed universe. -/
def tyCustomValue : Ty :=
  { kind := TypeKind.Value, name := "Run", is_custom := true, is_nullable := false }

/-- C8, counterexample: `get_ll_type`'s final `_ => "'pointer'"` catch-all IS
taken inside the closed type universe, namely at every custom `Value`-kind
type such as `Run` by value; so "no default/catch-all branch is ever taken"
fails as stated. -/
theorem C8_counterexample :
    InUniverse tyCustomValue ∧ ll_default_taken tyCustomValue = true ∧
      get_ll_type tyCustomValue = "\x27pointer\x27" := by
  refine ⟨Or.inl rfl, rfl, rfl⟩

/-- C8 as amended: over the closed universe the three mappers are total
functions (they are Lean functions, hence single-valued), the two
fall-through arms of `get_hl_type_without_null` and the fall-through arm of
`get_ll_type`'s primitive table are never taken, and `get_ll_type`'s final
pointer catch-all is taken exactly at custom `Value`-kind types not named
`Json` — where it yields the pointer tag, as the spec's own §4.1 fallback
sentence describes. -/
theorem C8_amended :
    ∀ ty : Ty, InUniverse ty →
      hl_fallthrough_taken ty = false ∧ hl_unreachable_taken ty = false ∧
      ll_fallthrough_taken ty = false ∧
      (ll_default_taken ty = true ↔
        ty.is_custom = true ∧ ty.kind = TypeKind.Value ∧ ty.name ≠ "Json") ∧
      (ll_default_taken ty = true → get_ll_type ty = "\x27pointer\x27") := by
  rintro ⟨k, nm, cust, nul⟩ h
  by_cases hj : nm = "Json"
  · subst hj
    cases cust <;> cases k <;> cases nul <;> decide
  · cases cust
    · have hm : nm ∈ primNames := by
        rcases h with h | h | h
        · cases h
        · exact h
        · exact absurd h hj
      simp only [primNames, List.mem_cons, List.not_mem_nil, or_false] at hm
      rcases hm with rfl | rfl | rfl | rfl | rfl | rfl | rfl | rfl | rfl | rfl | rfl | rfl | rfl | rfl <;>
        cases k <;> cases nul <;> decide
    · cases k
      · exact ⟨rfl, rfl, by simp [ll_fallthrough_taken], by simp [ll_default_taken],
          by intro h'; simp [ll_default_taken] at h'⟩
      · exact ⟨rfl, rfl, by simp [ll_fallthrough_taken], by simp [ll_default_taken],
          by intro h'; simp [ll_default_taken] at h'⟩
      · refine ⟨rfl, rfl, by simp [ll_fallthrough_taken], by simp [ll_default_taken, hj], ?_⟩
        intro _
        unfold get_ll_type
        split <;> simp_all

/-- Witness for C8 as amended, at the primitive `i32` by value. -/
theorem C8_amended_witness :
    InUniverse { kind := TypeKind.Value, name := "i32", is_custom := false, is_nullable := false } ∧
      (hl_fallthrough_taken { kind := TypeKind.Value, name := "i32", is_custom := false, is_nullable := false } = false ∧
       hl_unreachable_taken { kind := TypeKind.Value, name := "i32", is_custom := false, is_nullable := false } = false ∧
       ll_fallthrough_taken { kind := TypeKind.Value, name := "i32", is_custom := false, is_nullable := false } = false ∧
       (ll_default_taken { kind := TypeKind.Value, name := "i32", is_custom := false, is_nullable := false } = true ↔
         Ty.is_custom { kind := TypeKind.Value, name := "i32", is_custom := false, is_nullable := false } = true ∧
         Ty.kind { kind := TypeKind.Value, name := "i32", is_custom := false, is_nullable := false } = TypeKind.Value ∧
         Ty.name { kind := TypeKind.Value, name := "i32", is_custom := false, is_nullable := false } ≠ "Json") ∧
       (ll_default_taken { kind := TypeKind.Value, name := "i32", is_custom := false, is_nullable := false } = true →
         get_ll_type { kind := TypeKind.Value, name := "i32", is_custom := false, is_nullable := false } = "\x27pointer\x27")) :=
  ⟨by decide, C8_amended _ (by decide)⟩

/-! ### Claim C9: determinism of generation -/

/-- C9: generation is deterministic.  `write` is a pure function of the
model, and the `BTreeMap` iteration order is canonical: any two association
lists that are permutations of each other and both sorted by key (as a
`BTreeMap`'s entry sequence is) produce byte-identical output. -/
theorem C9_deterministic :
    ∀ (m1 m2 : List (String × Class)) (ts : Bool),
      m1.Perm m2 →
      m1.Sorted (fun a b => a.1 < b.1) →
      m2.Sorted (fun a b => a.1 < b.1) →
      write m1 ts = write m2 ts := by
  intro m1 m2 ts hp h1 h2
  haveI : IsAntisymm (String × Class) (fun a b => a.1 < b.1) :=
    ⟨fun _ _ hab hba => absurd hba (lt_asymm hab)⟩
  rw [List.eq_of_perm_of_sorted hp h1 h2]

/-- The empty class record. -/
def emptyClass : Class :=
  { static_fns := [], own_fns := [], shared_fns := [], mut_fns := [] }

/-- Witness for C9 at a concrete two-class sorted model. -/
theorem C9_deterministic_witness :
    write [("Run", emptyClass), ("Timer", emptyClass)] false =
      write [("Run", emptyClass), ("Timer", emptyClass)] false :=
  C9_deterministic _ _ false (List.Perm.refl _)
    (by simp [List.Sorted]; decide) (by simp [List.Sorted]; decide)

/-! ### Claim C1: constructor wrapping of custom returns -/

/-- A function returning a custom type by shared reference (`Ref` kind). -/
def fnRefReturn : Function :=
  { name := "Foo_get", method := "get", inputs := [],
    output := { kind := TypeKind.Ref, name := "Foo", is_custom := true, is_nullable := false } }

/-- C1, counterexample: for a custom `Ref`-kind return of type name `Foo`,
the emitted constructor is `new FooRef(`, the host-level view class — not a
constructor of "the class named exactly by the return type's name" (`Foo`):
no `new Foo(` appears anywhere in the emitted method. -/
theorem C1_counterexample :
    fnRefReturn.output.is_custom = true ∧
    "var result = new FooRef(" ∈ writeFnChunks fnRefReturn false ∧
    ¬ Substr "new Foo(" (writeFn fnRefReturn false) := by
  decide

/-- C1 as amended: for every function with a custom return, the native call
expression is immediately wrapped in a constructor invocation of the class
named by the return's non-nullable host type — the type's name with the
`Ref`/`RefMut` view suffix determined by its kind (`get_hl_type_without_null`)
— built from the raw result; for a non-custom return the raw result is bound
directly with no constructor; for a void function no result is bound at
all. -/
theorem C1_amended :
    ∀ (f : Function) (ts : Bool),
      (f.has_return_type = true → f.output.is_custom = true →
        ∃ pre post, writeFnChunks f ts =
          pre ++ ["var result = new " ++ get_hl_type_without_null f.output ++ "(",
                  callChunk f] ++ post) ∧
      (f.has_return_type = true → f.output.is_custom = false →
        ∃ pre post, writeFnChunks f ts =
          pre ++ ["var result = ", callChunk f] ++ post) ∧
      (f.has_return_type = false →
        resultOpenChunks f = [] ∧
        ∃ pre post, writeFnChunks f ts = pre ++ [callChunk f] ++ post) := by
  intro f ts
  refine ⟨?_, ?_, ?_⟩
  · intro h1 h2
    refine ⟨(if ts then [] else docChunks f) ++ [sigOpenChunk f]
        ++ paramChunksAux ts 0 (f.inputs.drop (if f.is_static then 0 else 1))
        ++ [sigCloseChunk f ts] ++ disposalChecks f,
      argChunksAux 0 f.inputs ++ [")"] ++ resultCloseChunks f ++ [";"]
        ++ handleNulling f ++ resultFinish f ++ [fnEndChunk], ?_⟩
    simp [writeFnChunks, resultOpenChunks, h1, h2]
  · intro h1 h2
    refine ⟨(if ts then [] else docChunks f) ++ [sigOpenChunk f]
        ++ paramChunksAux ts 0 (f.inputs.drop (if f.is_static then 0 else 1))
        ++ [sigCloseChunk f ts] ++ disposalChecks f,
      argChunksAux 0 f.inputs ++ [")"] ++ resultCloseChunks f ++ [";"]
        ++ handleNulling f ++ resultFinish f ++ [fnEndChunk], ?_⟩
    simp [writeFnChunks, resultOpenChunks, h1, h2]
  · intro h1
    refine ⟨by simp [resultOpenChunks, h1], ?_⟩
    refine ⟨(if ts then [] else docChunks f) ++ [sigOpenChunk f]
        ++ paramChunksAux ts 0 (f.inputs.drop (if f.is_static then 0 else 1))
        ++ [sigCloseChunk f ts] ++ disposalChecks f,
      argChunksAux 0 f.inputs ++ [")"] ++ resultCloseChunks f ++ [";"]
        ++ handleNulling f ++ resultFinish f ++ [fnEndChunk], ?_⟩
    simp [writeFnChunks, resultOpenChunks, h1]

/-- Witness for C1 as amended, at `fnRefReturn` in documented mode. -/
theorem C1_amended_witness :
    ∃ pre post, writeFnChunks fnRefReturn false =
      pre ++ ["var result = new " ++ get_hl_type_without_null fnRefReturn.output ++ "(",
              callChunk fnRefReturn] ++ post :=
  (C1_amended fnRefReturn false).1 (by decide) (by decide)

/-! ### Claim C2: nullable custom results -/

/-- A function returning a nullable custom type by value. -/
def fnNullableValueReturn : Function :=
  { name := "Bar_make", method := "make", inputs := [],
    output := { kind := TypeKind.Value, name := "Bar", is_custom := true, is_nullable := true } }

/-- C2, counterexample: the emitted body does NOT check the raw result for
null before constructing the wrapped instance: no chunk preceding the
constructor invocation contains a null check of the result; the check
(`resNullCheckChunk`) appears, but only after the construction. -/
theorem C2_counterexample :
    fnNullableValueReturn.output.is_custom = true ∧
    fnNullableValueReturn.output.is_nullable = true ∧
    (∀ c ∈ (writeFnChunks fnNullableValueReturn false).takeWhile
        (fun c => c ≠ "var result = new Bar("),
      ¬ Substr "isNull(result" c) ∧
    "var result = new Bar(" ∈ writeFnChunks fnNullableValueReturn false ∧
    resNullCheckChunk ∈ writeFnChunks fnNullableValueReturn false := by
  decide

/-- C2 as amended: for every function with a nullable custom return, the
emitted body constructs the wrapped instance around the raw call first, and
then — before returning — checks the raw result handle for null and yields
`null` instead of the wrapped instance when it is null. -/
theorem C2_amended :
    ∀ (f : Function) (ts : Bool),
      f.has_return_type = true → f.output.is_custom = true →
      f.output.is_nullable = true →
      ∃ pre r, writeFnChunks f ts = pre ++ [resNullCheckChunk, r, fnEndChunk] ∧
        ("var result = new " ++ get_hl_type_without_null f.output ++ "(") ∈ pre := by
  intro f ts h1 h2 h3
  refine ⟨(if ts then [] else docChunks f) ++ [sigOpenChunk f]
      ++ paramChunksAux ts 0 (f.inputs.drop (if f.is_static then 0 else 1))
      ++ [sigCloseChunk f ts] ++ disposalChecks f
      ++ ["var result = new " ++ get_hl_type_without_null f.output ++ "(", callChunk f]
      ++ argChunksAux 0 f.inputs ++ [")", ")", ";"] ++ handleNulling f,
    (if f.output.name = "Json" then "\n        return JSON.parse(result);"
     else "\n        return result;"), ?_, ?_⟩
  · simp [writeFnChunks, resultOpenChunks, resultCloseChunks, resultFinish, h1, h2, h3]
  · simp

/-- Witness for C2 as amended, at `fnNullableValueReturn` in documented
mode. -/
theorem C2_amended_witness :
    ∃ pre r, writeFnChunks fnNullableValueReturn false =
      pre ++ [resNullCheckChunk, r, fnEndChunk] ∧
      ("var result = new "
        ++ get_hl_type_without_null fnNullableValueReturn.output ++ "(") ∈ pre :=
  C2_amended fnNullableValueReturn false (by decide) (by decide) (by decide)

/-! ### Claim C3: the two output modes -/

/-- A model containing only the class `Run` (with no functions). -/
def modelRunOnly : List (String × Class) := [("Run", emptyClass)]

/-- C3, the code bug: the documented (plain JavaScript) output is NOT free
of inline type annotations — the hand-written `Run` block of the
non-TypeScript branch emits `static parseFile(file: any)` and
`static parseString(text: string): Run`, TypeScript annotations that are
invalid JavaScript, contradicting the branch's own doc-comment style. -/
theorem C3_code_bug :
    runBlockJs ∈ writeChunks modelRunOnly false ∧
    Substr "(file: any)" runBlockJs ∧
    Substr "(text: string): Run" runBlockJs ∧
    Substr "static parseFile(file: any)" (write modelRunOnly false) := by
  have hmem : runBlockJs ∈ writeChunks modelRunOnly false := by decide
  refine ⟨hmem, substr_of_prefix_drop 448 (by decide),
    substr_of_prefix_drop 646 (by decide), ?_⟩
  have h1 : Substr "static parseFile(file: any)" runBlockJs :=
    substr_of_prefix_drop 432 (by decide)
  exact List.IsInfix.trans h1 (substr_of_mem_concat hmem)

/-! ### Claim C4: ownership finalization (nulling after full transfer) -/

theorem mkNulling_inj {a b : String} (h : mkNulling a = mkNulling b) : a = b := by
  unfold mkNulling at h
  have h2 : ("\n        ").data ++ (a.data ++ (".ptr = ref.NULL;").data) =
      ("\n        ").data ++ (b.data ++ (".ptr = ref.NULL;").data) := by
    simpa [String.data_append] using congrArg String.data h
  exact String.ext (List.append_cancel_right (List.append_cancel_left h2))

/-- C4: for every custom-typed input of `Value` kind, the emitted body
contains, after the native call expression, a statement nulling that
argument's handle; for custom inputs of `Ref`/`RefMut` kind no such nulling
statement is emitted (given that the mixed-case parameter names are
distinct, as the nulling statements are keyed by name). -/
theorem C4_value_nulling :
    ∀ (f : Function) (ts : Bool) (n : String) (t : Ty),
      (n, t) ∈ f.inputs → t.is_custom = true →
      (t.kind = TypeKind.Value →
        mkNulling (toMixedCase n) ∈ handleNulling f ∧
        ∃ pre post, writeFnChunks f ts = pre ++ handleNulling f ++ post ∧
          callChunk f ∈ pre) ∧
      ((t.kind = TypeKind.Ref ∨ t.kind = TypeKind.RefMut) →
        (f.inputs.map (fun p => toMixedCase p.1)).Nodup →
        mkNulling (toMixedCase n) ∉ handleNulling f) := by
  intro f ts n t hmem hcust
  constructor
  · intro hkind
    constructor
    · exact List.mem_filterMap.mpr ⟨(n, t), hmem, by simp [hcust, hkind]⟩
    · refine ⟨(if ts then [] else docChunks f) ++ [sigOpenChunk f]
          ++ paramChunksAux ts 0 (f.inputs.drop (if f.is_static then 0 else 1))
          ++ [sigCloseChunk f ts] ++ disposalChecks f ++ resultOpenChunks f
          ++ [callChunk f] ++ argChunksAux 0 f.inputs ++ [")"]
          ++ resultCloseChunks f ++ [";"],
        resultFinish f ++ [fnEndChunk], ?_, by simp⟩
      simp [writeFnChunks]
  · intro hkind hnd hmem'
    obtain ⟨p, hp, hsome⟩ := List.mem_filterMap.mp hmem'
    by_cases hcond : p.2.is_custom && p.2.kind == TypeKind.Value
    · rw [if_pos hcond] at hsome
      have hname : toMixedCase p.1 = toMixedCase n :=
        mkNulling_inj (Option.some.inj hsome)
      have hpn : p = (n, t) :=
        List.inj_on_of_nodup_map hnd hp hmem hname
      rw [hpn] at hcond
      simp only [Bool.and_eq_true, beq_iff_eq] at hcond
      rcases hkind with hk | hk <;> rw [hcond.2] at hk <;> cases hk
    · rw [if_neg hcond] at hsome
      cases hsome

/-- A method that consumes a custom argument by value and borrows its
receiver. -/
def fnTransfer : Function :=
  { name := "Timer_replace_run", method := "replace_run",
    inputs := [("this", { kind := TypeKind.RefMut, name := "Timer", is_custom := true, is_nullable := false }),
               ("run", { kind := TypeKind.Value, name := "Run", is_custom := true, is_nullable := false })],
    output := { kind := TypeKind.Value, name := "()", is_custom := false, is_nullable := false } }

/-- Witness for C4 at `fnTransfer`'s `run` parameter (transferred by value)
and at its `this` parameter (a `RefMut` borrow). -/
theorem C4_value_nulling_witness :
    (mkNulling (toMixedCase "run") ∈ handleNulling fnTransfer ∧
      ∃ pre post, writeFnChunks fnTransfer false = pre ++ handleNulling fnTransfer ++ post ∧
        callChunk fnTransfer ∈ pre) ∧
    mkNulling (toMixedCase "this") ∉ handleNulling fnTransfer :=
  ⟨(C4_value_nulling fnTransfer false "run"
      { kind := TypeKind.Value, name := "Run", is_custom := true, is_nullable := false }
      (by decide) rfl).1 rfl,
   (C4_value_nulling fnTransfer false "this"
      { kind := TypeKind.RefMut, name := "Timer", is_custom := true, is_nullable := false }
      (by decide) rfl).2 (Or.inr rfl) (by decide)⟩

/-! ### Claim C5: disposal checks are emitted pre-call and are the only
throw statements -/

/-- The string contains no double-quote character (so it cannot contain a
JavaScript `throw "..."` statement). -/
def NoQuote (s : String) : Prop :=
  '\"' ∉ s.data

instance (s : String) : Decidable (NoQuote s) := by
  unfold NoQuote; infer_instance

theorem NoQuote_append {a b : String} (ha : NoQuote a) (hb : NoQuote b) :
    NoQuote (a ++ b) := by
  unfold NoQuote at *
  rw [String.data_append]
  intro h
  rcases List.mem_append.mp h with h | h
  · exact ha h
  · exact hb h

theorem NoQuote_mixed (s : String) : NoQuote (toMixedCase s) :=
  toMixedCase_not_mem (by decide)

theorem quote_mem_mkCheck (s : String) : '\"' ∈ (mkCheck s).data := by
  have hB : '\"' ∈ (".ptr)) \x7b\n            throw \"").data := by decide
  simp only [mkCheck, String.data_append, List.mem_append]
  tauto

theorem ne_mkCheck_of_NoQuote {c : String} (h : NoQuote c) :
    ∀ s, c ≠ mkCheck s := by
  intro s heq
  exact h (heq ▸ quote_mem_mkCheck s)

theorem NoQuote_hl_without {ty : Ty} (h : NoQuote ty.name) :
    NoQuote (get_hl_type_without_null ty) := by
  unfold get_hl_type_without_null
  split
  · split <;> first | exact NoQuote_append h (by decide) | exact h
  · split
    · decide
    · decide
    · decide
    · split <;> first | decide | exact h

theorem NoQuote_hl {ty : Ty} (h : NoQuote ty.name) :
    NoQuote (get_hl_type_with_null ty) := by
  unfold get_hl_type_with_null
  refine NoQuote_append (NoQuote_hl_without h) ?_
  split <;> decide

theorem NoQuote_docChunks {f : Function} (hout : NoQuote f.output.name)
    (hin : ∀ p ∈ f.inputs, NoQuote p.2.name) :
    ∀ c ∈ docChunks f, NoQuote c := by
  intro c hc
  unfold docChunks at hc
  simp only [List.mem_append, List.mem_singleton, List.mem_map] at hc
  rcases hc with ((hc | hc) | hc) | hc
  · subst hc; decide
  · obtain ⟨p, hp, rfl⟩ := hc
    unfold docParamChunk
    exact NoQuote_append
      (NoQuote_append
        (NoQuote_append (by decide) (NoQuote_hl (hin p (List.mem_of_mem_drop hp))))
        (by decide))
      (NoQuote_mixed _)
  · split at hc
    · rcases List.mem_singleton.mp hc with rfl
      exact NoQuote_append (NoQuote_append (by decide) (NoQuote_hl hout)) (by decide)
    · cases hc
  · subst hc; decide

theorem NoQuote_sigOpen (f : Function) : NoQuote (sigOpenChunk f) := by
  unfold sigOpenChunk
  refine NoQuote_append
    (NoQuote_append (NoQuote_append (by decide) ?_) (NoQuote_mixed _)) (by decide)
  split <;> decide

theorem NoQuote_paramChunks {ts : Bool} :
    ∀ (l : List (String × Ty)) (i : Nat), (∀ p ∈ l, NoQuote p.2.name) →
      ∀ c ∈ paramChunksAux ts i l, NoQuote c := by
  intro l
  induction l with
  | nil => intro i _ c hc; cases hc
  | cons p rest ih =>
    intro i hl c hc
    unfold paramChunksAux at hc
    simp only [List.mem_append, List.mem_singleton] at hc
    rcases hc with ((hc | hc) | hc) | hc
    · split at hc
      · rcases List.mem_singleton.mp hc with rfl; decide
      · cases hc
    · subst hc; exact NoQuote_mixed _
    · split at hc
      · rcases List.mem_singleton.mp hc with rfl
        exact NoQuote_append (by decide) (NoQuote_hl (hl p (List.mem_cons_self p rest)))
      · cases hc
    · exact ih (i + 1) (fun q hq => hl q (List.mem_cons_of_mem p hq)) c hc

theorem NoQuote_argChunks :
    ∀ (l : List (String × Ty)) (i : Nat), ∀ c ∈ argChunksAux i l, NoQuote c := by
  intro l
  induction l with
  | nil => intro i c hc; cases hc
  | cons p rest ih =>
    intro i c hc
    unfold argChunksAux at hc
    simp only [List.mem_append, List.mem_singleton] at hc
    rcases hc with (hc | hc) | hc
    · split at hc
      · rcases List.mem_singleton.mp hc with rfl; decide
      · cases hc
    · subst hc
      unfold argExpr
      split
      · decide
      · split
        · exact NoQuote_append (NoQuote_append (by decide) (NoQuote_mixed _)) (by decide)
        · split
          · exact NoQuote_append (NoQuote_mixed _) (by decide)
          · exact NoQuote_mixed _
    · exact ih (i + 1) c hc

theorem NoQuote_sigClose {f : Function} (ts : Bool) (hout : NoQuote f.output.name) :
    NoQuote (sigCloseChunk f ts) := by
  unfold sigCloseChunk
  split
  · exact NoQuote_append (NoQuote_append (by decide) (NoQuote_hl hout)) (by decide)
  · decide

theorem NoQuote_resultOpen {f : Function} (hout : NoQuote f.output.name) :
    ∀ c ∈ resultOpenChunks f, NoQuote c := by
  intro c hc
  unfold resultOpenChunks at hc
  split at hc
  · split at hc
    · rcases List.mem_singleton.mp hc with rfl
      exact NoQuote_append (NoQuote_append (by decide) (NoQuote_hl_without hout)) (by decide)
    · rcases List.mem_singleton.mp hc with rfl
      decide
  · cases hc

theorem NoQuote_handleNulling {f : Function} :
    ∀ c ∈ handleNulling f, NoQuote c := by
  intro c hc
  obtain ⟨p, _, hsome⟩ := List.mem_filterMap.mp hc
  by_cases hcond : p.2.is_custom && p.2.kind == TypeKind.Value
  · rw [if_pos hcond] at hsome
    rcases Option.some.inj hsome with rfl
    exact NoQuote_append (NoQuote_append (by decide) (NoQuote_mixed _)) (by decide)
  · rw [if_neg hcond] at hsome
    cases hsome

theorem NoQuote_resultFinish {f : Function} :
    ∀ c ∈ resultFinish f, NoQuote c := by
  intro c hc
  unfold resultFinish at hc
  split at hc
  · simp only [List.mem_append, List.mem_singleton] at hc
    rcases hc with hc | hc
    · split at hc
      · rcases List.mem_singleton.mp hc with rfl; decide
      · cases hc
    · subst hc; split <;> decide
  · cases hc

/-- C5: for every custom-typed input — of any kind, receiver included — the
emitted body contains a disposal check that throws an error naming that
parameter; all such checks sit in one block placed before the native call
expression; and they are the only chunks of the emitted method that have the
shape of a disposal-check/throw statement (every other chunk contains no
string literal at all, given that the model's identifiers contain no quote
character). -/
theorem C5_disposal_checks :
    ∀ (f : Function) (ts : Bool),
      NoQuote f.name → NoQuote f.output.name →
      (∀ p ∈ f.inputs, NoQuote p.2.name) →
      (∀ n t, (n, t) ∈ f.inputs → t.is_custom = true →
        mkCheck (toMixedCase n) ∈ disposalChecks f) ∧
      (∃ pre post, writeFnChunks f ts = pre ++ disposalChecks f ++ post ∧
        callChunk f ∈ post ∧
        (∀ c ∈ pre, ∀ s, c ≠ mkCheck s) ∧
        (∀ c ∈ post, ∀ s, c ≠ mkCheck s)) := by
  intro f ts hnm hout hin
  constructor
  · intro n t hmem hcust
    exact List.mem_filterMap.mpr ⟨(n, t), hmem, by simp [hcust]⟩
  · refine ⟨(if ts then [] else docChunks f) ++ [sigOpenChunk f]
        ++ paramChunksAux ts 0 (f.inputs.drop (if f.is_static then 0 else 1))
        ++ [sigCloseChunk f ts],
      resultOpenChunks f ++ [callChunk f] ++ argChunksAux 0 f.inputs ++ [")"]
        ++ resultCloseChunks f ++ [";"] ++ handleNulling f ++ resultFinish f
        ++ [fnEndChunk], ?_, by simp, ?_, ?_⟩
    · simp [writeFnChunks]
    · intro c hc
      simp only [List.mem_append, List.mem_singleton] at hc
      have hq : NoQuote c := by
        rcases hc with ((hc | hc) | hc) | hc
        · split at hc
          · cases hc
          · exact NoQuote_docChunks hout hin c hc
        · subst hc; exact NoQuote_sigOpen f
        · exact NoQuote_paramChunks _ 0 (fun p hp => hin p (List.mem_of_mem_drop hp)) c hc
        · subst hc; exact NoQuote_sigClose ts hout
      exact ne_mkCheck_of_NoQuote hq
    · intro c hc
      simp only [List.mem_append, List.mem_singleton] at hc
      have hq : NoQuote c := by
        rcases hc with ((((((((hc | hc) | hc) | hc) | hc) | hc) | hc) | hc) | hc)
        · exact NoQuote_resultOpen hout c hc
        · subst hc
          exact NoQuote_append (NoQuote_append (by decide) hnm) (by decide)
        · exact NoQuote_argChunks _ 0 c hc
        · subst hc; decide
        · unfold resultCloseChunks at hc
          split at hc
          · rcases List.mem_singleton.mp hc with rfl; decide
          · cases hc
        · subst hc; decide
        · exact NoQuote_handleNulling c hc
        · exact NoQuote_resultFinish c hc
        · subst hc; decide
      exact ne_mkCheck_of_NoQuote hq

/-- Witness for C5 at `fnTransfer` in documented mode: both custom inputs
(`this` and `run`) get disposal checks, placed before the native call, and
no other chunk has the throw shape. -/
theorem C5_disposal_checks_witness :
    (∀ n t, (n, t) ∈ fnTransfer.inputs → t.is_custom = true →
      mkCheck (toMixedCase n) ∈ disposalChecks fnTransfer) ∧
    (∃ pre post, writeFnChunks fnTransfer false =
      pre ++ disposalChecks fnTransfer ++ post ∧
      callChunk fnTransfer ∈ post ∧
      (∀ c ∈ pre, ∀ s, c ≠ mkCheck s) ∧
      (∀ c ∈ post, ∀ s, c ≠ mkCheck s)) :=
  C5_disposal_checks fnTransfer false (by decide) (by decide) (by decide)

/-! ### Claim C7: the dispose operation -/

/-- State of one wrapper object at runtime: whether its handle is the null
sentinel. -/
structure DisposeState where
  ptr_is_null : Bool
deriving DecidableEq

/-- Modelled from the spec: the runtime meaning of the emitted `dispose`
body (the behavior of the generated JavaScript is outside `src/`).  Given
the optional native destructor entry point, `dispose` is a no-op on a null
handle; otherwise it invokes the destructor (when present) and nulls the
handle.  The second component lists the native entry points invoked. -/
def disposeRun (dropEntry : Option String) (s : DisposeState) :
    DisposeState × List String :=
  if s.ptr_is_null then (s, [])
  else (⟨true⟩, match dropEntry with | some nm => [nm] | none => [])

/-- C7: the emitted `dispose` is the guarded block
`if (!ref.isNull(this.ptr)) { [native drop call;] this.ptr = ref.NULL; }`,
the native destructor call being present exactly when the class declares an
`own_fns` function with method name `drop`; and the modelled runtime
behavior of that shape is idempotent — a second `dispose` is a no-op, as is
any `dispose` of an already-null handle. -/
theorem C7_dispose :
    ∀ (X : String) (c : Class) (ts : Bool),
      (∃ pre post, writeClassChunks X c ts =
        pre ++ [withDisposeOpenChunk] ++ dropCallChunks c
          ++ [disposeCloseChunk] ++ post) ∧
      (dropCallChunks c ≠ [] ↔ ∃ f ∈ c.own_fns, f.method = "drop") ∧
      (∀ e s, disposeRun e (disposeRun e s).1 = ((disposeRun e s).1, [])) ∧
      (∀ e, disposeRun e ⟨true⟩ = (⟨true⟩, [])) ∧
      (∀ nm, disposeRun (some nm) ⟨false⟩ = (⟨true⟩, [nm])) ∧
      disposeRun none ⟨false⟩ = (⟨true⟩, []) := by
  intro X c ts
  refine ⟨?_, ?_, ?_, fun e => rfl, fun nm => rfl, rfl⟩
  · refine ⟨[refHeaderChunk X ts] ++ ptrFieldChunks ts
        ++ (c.shared_fns.map (fun f => writeFnChunks f ts)).flatten
        ++ sharedTimerExtra X ts
        ++ [ctorOpenChunk ts, refMutHeaderChunk X ts]
        ++ (c.mut_fns.map (fun f => writeFnChunks f ts)).flatten
        ++ [ownHeaderChunk X ts, withOpenChunk X ts],
      ((ownTierFns c).map (fun f => writeFnChunks f ts)).flatten
        ++ runExtra X ts ++ [classFooterChunk X ts], ?_⟩
    simp [writeClassChunks]
  · unfold dropCallChunks
    rcases hfind : c.own_fns.find? (fun f => f.method = "drop") with _ | f <;>
      rw [hfind]
    · simp only [ne_eq, not_true_eq_false, false_iff]
      rintro ⟨g, hg, hdrop⟩
      have := List.find?_eq_none.mp hfind g hg
      simp [hdrop] at this
    · simp only [ne_eq, List.cons_ne_nil, not_false_eq_true, true_iff]
      refine ⟨f, List.mem_of_find?_eq_some hfind, ?_⟩
      have := List.find?_some hfind
      simpa using this
  · intro e s
    rcases s with ⟨_ | _⟩
    · rcases e with _ | nm <;> rfl
    · rfl

/-- Witness for C7 at a concrete class with no declared destructor. -/
theorem C7_dispose_witness :
    ∃ pre post, writeClassChunks "Timer" emptyClass false =
      pre ++ [withDisposeOpenChunk] ++ dropCallChunks emptyClass
        ++ [disposeCloseChunk] ++ post :=
  (C7_dispose "Timer" emptyClass false).1

/-! ### Claim C10: the two name-keyed per-class extensions -/

/-- C10: the two hardcoded extensions are keyed on the exact class names —
`readWith`/`writeWith` are emitted inside the `SharedTimerRef` block (after
the shared methods, before the class's constructor and before `RefMut`
header), the three parse factories inside the owning `Run` block (after the
static/own methods, just before the class footer) — and any class with a
different name gets neither block: its emission consists of exactly the
three headers, the tier method lists, the constructor, `with`/`dispose`,
and the footer. -/
theorem C10_extensions :
    ∀ (c : Class) (ts : Bool),
      (∃ A B, writeClassChunks "SharedTimer" c ts =
        A ++ [if ts then sharedTimerBlockTs else sharedTimerBlockJs] ++ B ∧
        refHeaderChunk "SharedTimer" ts ∈ A ∧
        B = [ctorOpenChunk ts, refMutHeaderChunk "SharedTimer" ts]
          ++ (c.mut_fns.map (fun f => writeFnChunks f ts)).flatten
          ++ [ownHeaderChunk "SharedTimer" ts, withOpenChunk "SharedTimer" ts,
              withDisposeOpenChunk]
          ++ dropCallChunks c ++ [disposeCloseChunk]
          ++ ((ownTierFns c).map (fun f => writeFnChunks f ts)).flatten
          ++ [classFooterChunk "SharedTimer" ts]) ∧
      (∃ A, writeClassChunks "Run" c ts =
        A ++ [if ts then runBlockTs else runBlockJs] ++ [classFooterChunk "Run" ts] ∧
        ownHeaderChunk "Run" ts ∈ A ∧ disposeCloseChunk ∈ A) ∧
      Substr "readWith(" (if ts then sharedTimerBlockTs else sharedTimerBlockJs) ∧
      Substr "writeWith(" (if ts then sharedTimerBlockTs else sharedTimerBlockJs) ∧
      Substr "parseArray(" (if ts then runBlockTs else runBlockJs) ∧
      Substr "parseFile(" (if ts then runBlockTs else runBlockJs) ∧
      Substr "parseString(" (if ts then runBlockTs else runBlockJs) ∧
      (∀ X, X ≠ "SharedTimer" → X ≠ "Run" →
        sharedTimerExtra X ts = [] ∧ runExtra X ts = [] ∧
        writeClassChunks X c ts =
          [refHeaderChunk X ts] ++ ptrFieldChunks ts
            ++ (c.shared_fns.map (fun f => writeFnChunks f ts)).flatten
            ++ [ctorOpenChunk ts, refMutHeaderChunk X ts]
            ++ (c.mut_fns.map (fun f => writeFnChunks f ts)).flatten
            ++ [ownHeaderChunk X ts, withOpenChunk X ts, withDisposeOpenChunk]
            ++ dropCallChunks c ++ [disposeCloseChunk]
            ++ ((ownTierFns c).map (fun f => writeFnChunks f ts)).flatten
            ++ [classFooterChunk X ts]) := by
  intro c ts
  refine ⟨?_, ?_, ?_, ?_, ?_, ?_, ?_, ?_⟩
  · refine ⟨[refHeaderChunk "SharedTimer" ts] ++ ptrFieldChunks ts
        ++ (c.shared_fns.map (fun f => writeFnChunks f ts)).flatten, _, ?_, by simp, rfl⟩
    simp [writeClassChunks, sharedTimerExtra, runExtra]
  · refine ⟨[refHeaderChunk "Run" ts] ++ ptrFieldChunks ts
        ++ (c.shared_fns.map (fun f => writeFnChunks f ts)).flatten
        ++ [ctorOpenChunk ts, refMutHeaderChunk "Run" ts]
        ++ (c.mut_fns.map (fun f => writeFnChunks f ts)).flatten
        ++ [ownHeaderChunk "Run" ts, withOpenChunk "Run" ts, withDisposeOpenChunk]
        ++ dropCallChunks c ++ [disposeCloseChunk]
        ++ ((ownTierFns c).map (fun f => writeFnChunks f ts)).flatten, ?_, by simp, by simp⟩
    simp [writeClassChunks, sharedTimerExtra, runExtra]
  · cases ts
    · exact substr_of_prefix_drop 63 (by decide)
    · exact substr_of_prefix_drop 5 (by decide)
  · cases ts
    · exact substr_of_prefix_drop 242 (by decide)
    · exact substr_of_prefix_drop 150 (by decide)
  · cases ts
    · exact substr_of_prefix_drop 80 (by decide)
    · exact substr_of_prefix_drop 12 (by decide)
  · cases ts
    · exact substr_of_prefix_drop 439 (by decide)
    · exact substr_of_prefix_drop 304 (by decide)
  · cases ts
    · exact substr_of_prefix_drop 635 (by decide)
    · exact substr_of_prefix_drop 435 (by decide)
  · intro X h1 h2
    refine ⟨by simp [sharedTimerExtra, h1], by simp [runExtra, h2], ?_⟩
    simp [writeClassChunks, sharedTimerExtra, runExtra, h1, h2]

/-- Witness for C10's last component: the class name `Timer` matches
neither extension, so it receives no extra block. -/
theorem C10_extensions_witness :
    sharedTimerExtra "Timer" false = [] ∧ runExtra "Timer" false = [] ∧
    writeClassChunks "Timer" emptyClass false =
      [refHeaderChunk "Timer" false] ++ ptrFieldChunks false
        ++ (emptyClass.shared_fns.map (fun f => writeFnChunks f false)).flatten
        ++ [ctorOpenChunk false, refMutHeaderChunk "Timer" false]
        ++ (emptyClass.mut_fns.map (fun f => writeFnChunks f false)).flatten
        ++ [ownHeaderChunk "Timer" false, withOpenChunk "Timer" false,
            withDisposeOpenChunk]
        ++ dropCallChunks emptyClass ++ [disposeCloseChunk]
        ++ ((ownTierFns emptyClass).map (fun f => writeFnChunks f false)).flatten
        ++ [classFooterChunk "Timer" false] :=
  (C10_extensions emptyClass false).2.2.2.2.2.2.2 "Timer" (by decide) (by decide)

/-! ### Claim C6: the three-tier hierarchy

The analysis below identifies each model function's emitted method by its
signature-opener chunk (`sigOpenChunk`), characterized among all emitted
chunks by its first and last characters. -/

/-- The character of `s` at position `n`, if any. -/
def chAt (s : String) (n : Nat) : Option Char :=
  s.data[n]?

theorem chAt_append_left {a : String} (b : String) {n : Nat}
    (h : n < a.data.length) : chAt (a ++ b) n = chAt a n := by
  unfold chAt
  rw [String.data_append]
  exact List.getElem?_append_left h

theorem str_data_ne_nil {a : String} (b : String) (h : a.data ≠ []) :
    (a ++ b).data ≠ [] := by
  rw [String.data_append]
  intro hc
  exact h (List.append_eq_nil.mp hc).1

theorem chAt0_of_left {a : String} (b : String) (h : a.data ≠ []) :
    chAt (a ++ b) 0 = chAt a 0 :=
  chAt_append_left b (by cases hd : a.data with
    | nil => exact absurd hd h
    | cons c cs => simp [hd])

theorem strLast_concat {a b : String} (h : b.data ≠ []) :
    (a ++ b).data.getLast? = b.data.getLast? := by
  rw [String.data_append]
  exact List.getLast?_append_of_ne_nil a.data h

theorem strLast_empty_right {a b : String} (h : b.data = []) :
    (a ++ b).data.getLast? = a.data.getLast? := by
  rw [String.data_append, h, List.append_nil]

theorem getLast?_alnum {w : String} (hw : ∀ ch ∈ w.data, ch.isAlphanum = true)
    {x : Char} (h : w.data.getLast? = some x) : x.isAlphanum = true :=
  hw x (List.mem_of_mem_getLast? h)

/-- The characteristic shape of a signature-opener chunk: it starts with a
newline and ends with the opening parenthesis of the parameter list. -/
def SigShape (c : String) : Prop :=
  chAt c 0 = some '\n' ∧ c.data.getLast? = some '('

theorem sigShape_sigOpen (f : Function) : SigShape (sigOpenChunk f) := by
  unfold sigOpenChunk
  constructor
  · rw [chAt0_of_left _ (str_data_ne_nil _ (str_data_ne_nil _ (by decide)))]
    rw [chAt0_of_left _ (str_data_ne_nil _ (by decide))]
    rw [chAt0_of_left _ (by decide)]
    decide
  · exact strLast_concat (by decide)

theorem not_sigShape_of_last {c : String} (x : Char)
    (h : c.data.getLast? = some x) (hx : x ≠ '(') : ¬ SigShape c := by
  rintro ⟨_, hl⟩
  rw [h] at hl
  exact hx (Option.some.inj hl)

theorem not_sigShape_of_chAt0 {c : String} (h : chAt c 0 ≠ some '\n') :
    ¬ SigShape c := by
  rintro ⟨hh, _⟩
  exact h hh

theorem not_sigShape_of_alnum_tail {a w : String}
    (hw : ∀ ch ∈ w.data, ch.isAlphanum = true)
    (hne : a.data.getLast? ≠ some '(') : ¬ SigShape (a ++ w) := by
  rintro ⟨_, hl⟩
  cases hwd : w.data with
  | nil =>
    rw [strLast_empty_right hwd] at hl
    exact hne hl
  | cons c cs =>
    rw [strLast_concat (by rw [hwd]; simp)] at hl
    have := getLast?_alnum hw hl
    rw [show ('(').isAlphanum = false from rfl] at this
    cases this

theorem not_sigShape_of_alnum_head {w : String} (b : String)
    (hw : ∀ ch ∈ w.data, ch.isAlphanum = true)
    (hb : chAt b 0 ≠ some '\n') : ¬ SigShape (w ++ b) := by
  rintro ⟨hh, _⟩
  cases hwd : w.data with
  | nil =>
    have heq : chAt (w ++ b) 0 = chAt b 0 := by
      unfold chAt
      rw [String.data_append, hwd, List.nil_append]
    exact hb (heq ▸ hh)
  | cons c cs =>
    rw [chAt0_of_left b (by rw [hwd]; simp)] at hh
    have hc0 : (w.data)[0]? = some '\n' := hh
    rw [hwd] at hc0
    simp only [List.getElem?_cons_zero, Option.some.injEq] at hc0
    have hal := hw c (by rw [hwd]; exact List.mem_cons_self c cs)
    rw [hc0] at hal
    exact absurd hal (by decide)

/-- A string made only of alphanumeric characters (and possibly empty) is
never a signature opener chunk shape. -/
theorem not_sigShape_of_alnum {w : String}
    (hw : ∀ ch ∈ w.data, ch.isAlphanum = true) : ¬ SigShape w := by
  rintro ⟨hh, _⟩
  cases hwd : w.data with
  | nil =>
    unfold chAt at hh
    rw [hwd] at hh
    cases hh
  | cons c cs =>
    have hc0 : (w.data)[0]? = some '\n' := hh
    rw [hwd] at hc0
    simp only [List.getElem?_cons_zero, Option.some.injEq] at hc0
    have hal := hw c (by rw [hwd]; exact List.mem_cons_self c cs)
    rw [hc0] at hal
    exact absurd hal (by decide)

theorem not_sigShape_docChunks {f : Function} : ∀ c ∈ docChunks f, ¬ SigShape c := by
  intro c hc
  unfold docChunks at hc
  simp only [List.mem_append, List.mem_singleton, List.mem_map] at hc
  rcases hc with ((hc | hc) | hc) | hc
  · subst hc
    exact not_sigShape_of_last '*' (by decide) (by decide)
  · obtain ⟨p, _, rfl⟩ := hc
    unfold docParamChunk
    refine not_sigShape_of_alnum_tail (toMixedCase_alnum _) ?_
    rw [strLast_concat (by decide)]
    decide
  · split at hc
    · rcases List.mem_singleton.mp hc with rfl
      refine not_sigShape_of_last '\x7d' ((strLast_concat (by decide)).trans (by decide)) (by decide)
    · cases hc
  · subst hc
    exact not_sigShape_of_last '/' (by decide) (by decide)

theorem not_sigShape_paramChunks {ts : Bool} :
    ∀ (l : List (String × Ty)) (i : Nat), ∀ c ∈ paramChunksAux ts i l, ¬ SigShape c := by
  intro l
  induction l with
  | nil => intro i c hc; cases hc
  | cons p rest ih =>
    intro i c hc
    unfold paramChunksAux at hc
    simp only [List.mem_append, List.mem_singleton] at hc
    rcases hc with ((hc | hc) | hc) | hc
    · split at hc
      · rcases List.mem_singleton.mp hc with rfl
        exact not_sigShape_of_chAt0 (by decide)
      · cases hc
    · subst hc
      exact not_sigShape_of_alnum (toMixedCase_alnum _)
    · split at hc
      · rcases List.mem_singleton.mp hc with rfl
        refine not_sigShape_of_chAt0 ?_
        rw [chAt0_of_left _ (by decide)]
        decide
      · cases hc
    · exact ih (i + 1) c hc

theorem not_sigShape_mkCheck (s : String) : ¬ SigShape (mkCheck s) := by
  unfold mkCheck
  refine not_sigShape_of_chAt0 ?_
  rw [chAt0_of_left _ (str_data_ne_nil _ (str_data_ne_nil _ (str_data_ne_nil _ (by decide))))]
  rw [chAt0_of_left _ (str_data_ne_nil _ (str_data_ne_nil _ (by decide)))]
  rw [chAt0_of_left _ (str_data_ne_nil _ (by decide))]
  rw [chAt0_of_left _ (by decide)]
  decide

theorem not_sigShape_disposalChecks {f : Function} :
    ∀ c ∈ disposalChecks f, ¬ SigShape c := by
  intro c hc
  obtain ⟨p, _, hsome⟩ := List.mem_filterMap.mp hc
  split at hsome
  · rcases Option.some.inj hsome with rfl
    exact not_sigShape_mkCheck _
  · cases hsome

theorem not_sigShape_resultOpen {f : Function} :
    ∀ c ∈ resultOpenChunks f, ¬ SigShape c := by
  intro c hc
  unfold resultOpenChunks at hc
  split at hc
  · split at hc
    · rcases List.mem_singleton.mp hc with rfl
      refine not_sigShape_of_chAt0 ?_
      rw [chAt0_of_left _ (str_data_ne_nil _ (by decide)), chAt0_of_left _ (by decide)]
      decide
    · rcases List.mem_singleton.mp hc with rfl
      exact not_sigShape_of_chAt0 (by decide)
  · cases hc

theorem not_sigShape_callChunk (f : Function) : ¬ SigShape (callChunk f) := by
  unfold callChunk
  refine not_sigShape_of_chAt0 ?_
  rw [chAt0_of_left _ (str_data_ne_nil _ (by decide)), chAt0_of_left _ (by decide)]
  decide

theorem not_sigShape_argExpr (n : String) (ty : Ty) : ¬ SigShape (argExpr n ty) := by
  unfold argExpr
  split
  · exact not_sigShape_of_chAt0 (by decide)
  · split
    · refine not_sigShape_of_chAt0 ?_
      rw [chAt0_of_left _ (str_data_ne_nil _ (by decide)), chAt0_of_left _ (by decide)]
      decide
    · split
      · exact not_sigShape_of_alnum_head _ (toMixedCase_alnum _) (by decide)
      · exact not_sigShape_of_alnum (toMixedCase_alnum _)

theorem not_sigShape_argChunks :
    ∀ (l : List (String × Ty)) (i : Nat), ∀ c ∈ argChunksAux i l, ¬ SigShape c := by
  intro l
  induction l with
  | nil => intro i c hc; cases hc
  | cons p rest ih =>
    intro i c hc
    unfold argChunksAux at hc
    simp only [List.mem_append, List.mem_singleton] at hc
    rcases hc with (hc | hc) | hc
    · split at hc
      · rcases List.mem_singleton.mp hc with rfl
        exact not_sigShape_of_chAt0 (by decide)
      · cases hc
    · subst hc
      exact not_sigShape_argExpr p.1 p.2
    · exact ih (i + 1) c hc

theorem not_sigShape_mkNulling (s : String) : ¬ SigShape (mkNulling s) := by
  have h : (mkNulling s).data.getLast? = some ';' := by
    unfold mkNulling
    rw [strLast_concat (by decide)]
    decide
  exact not_sigShape_of_last ';' h (by decide)

theorem not_sigShape_handleNulling {f : Function} :
    ∀ c ∈ handleNulling f, ¬ SigShape c := by
  intro c hc
  obtain ⟨p, _, hsome⟩ := List.mem_filterMap.mp hc
  split at hsome
  · rcases Option.some.inj hsome with rfl
    exact not_sigShape_mkNulling _
  · cases hsome

theorem not_sigShape_resultFinish {f : Function} :
    ∀ c ∈ resultFinish f, ¬ SigShape c := by
  intro c hc
  unfold resultFinish at hc
  split at hc
  · simp only [List.mem_append, List.mem_singleton] at hc
    rcases hc with hc | hc
    · split at hc
      · rcases List.mem_singleton.mp hc with rfl
        exact not_sigShape_of_last '\x7d' (by decide) (by decide)
      · cases hc
    · subst hc
      split <;> exact not_sigShape_of_last ';' (by decide) (by decide)
  · cases hc

/-- Every chunk of an emitted method that has the signature-opener shape IS
the method's signature opener. -/
theorem sig_eq_of_sigShape {f : Function} {ts : Bool} {c : String}
    (hc : c ∈ writeFnChunks f ts) (hs : SigShape c) : c = sigOpenChunk f := by
  unfold writeFnChunks at hc
  simp only [List.mem_append, List.mem_singleton] at hc
  rcases hc with ((((((((((((hc | hc) | hc) | hc) | hc) | hc) | hc) | hc) | hc) | hc) | hc) | hc) | hc) | hc
  · split at hc
    · cases hc
    · exact absurd hs (not_sigShape_docChunks c hc)
  · exact hc
  · exact absurd hs (not_sigShape_paramChunks _ 0 c hc)
  · subst hc
    exfalso
    revert hs
    unfold sigCloseChunk
    split
    · refine not_sigShape_of_chAt0 ?_
      rw [chAt0_of_left _ (str_data_ne_nil _ (by decide)), chAt0_of_left _ (by decide)]
      decide
    · exact not_sigShape_of_chAt0 (by decide)
  · exact absurd hs (not_sigShape_disposalChecks c hc)
  · exact absurd hs (not_sigShape_resultOpen c hc)
  · subst hc
    exact absurd hs (not_sigShape_callChunk f)
  · exact absurd hs (not_sigShape_argChunks _ 0 c hc)
  · subst hc
    exact absurd hs (not_sigShape_of_chAt0 (by decide))
  · exfalso
    unfold resultCloseChunks at hc
    split at hc
    · rcases List.mem_singleton.mp hc with rfl
      exact not_sigShape_of_chAt0 (by decide) hs
    · cases hc
  · subst hc
    exact absurd hs (not_sigShape_of_chAt0 (by decide))
  · exact absurd hs (not_sigShape_handleNulling c hc)
  · exact absurd hs (not_sigShape_resultFinish c hc)
  · subst hc
    exact absurd hs (not_sigShape_of_last '\x7d' (by decide) (by decide))

/-- The characteristic shape of a class-header chunk: it starts with a
newline and ends with the opening brace of a class body. -/
def HeaderShape (c : String) : Prop :=
  chAt c 0 = some '\n' ∧ c.data.getLast? = some '\x7b'

theorem not_headerShape_of_chAt0 {c : String} (h : chAt c 0 ≠ some '\n') :
    ¬ HeaderShape c := by
  rintro ⟨hh, _⟩
  exact h hh

theorem not_headerShape_of_last {c : String} (x : Char)
    (h : c.data.getLast? = some x) (hx : x ≠ '\x7b') : ¬ HeaderShape c := by
  rintro ⟨_, hl⟩
  rw [h] at hl
  exact hx (Option.some.inj hl)

theorem not_headerShape_of_alnum_tail {a w : String}
    (hw : ∀ ch ∈ w.data, ch.isAlphanum = true)
    (hne : a.data.getLast? ≠ some '\x7b') : ¬ HeaderShape (a ++ w) := by
  rintro ⟨_, hl⟩
  cases hwd : w.data with
  | nil =>
    rw [strLast_empty_right hwd] at hl
    exact hne hl
  | cons c cs =>
    rw [strLast_concat (by rw [hwd]; simp)] at hl
    have := getLast?_alnum hw hl
    rw [show ('\x7b').isAlphanum = false from rfl] at this
    cases this

theorem not_headerShape_of_alnum {w : String}
    (hw : ∀ ch ∈ w.data, ch.isAlphanum = true) : ¬ HeaderShape w := by
  rintro ⟨hh, _⟩
  cases hwd : w.data with
  | nil =>
    unfold chAt at hh
    rw [hwd] at hh
    cases hh
  | cons c cs =>
    have hc0 : (w.data)[0]? = some '\n' := hh
    rw [hwd] at hc0
    simp only [List.getElem?_cons_zero, Option.some.injEq] at hc0
    have hal := hw c (by rw [hwd]; exact List.mem_cons_self c cs)
    rw [hc0] at hal
    exact absurd hal (by decide)

theorem not_headerShape_of_alnum_head {w : String} (b : String)
    (hw : ∀ ch ∈ w.data, ch.isAlphanum = true)
    (hb : chAt b 0 ≠ some '\n') : ¬ HeaderShape (w ++ b) := by
  rintro ⟨hh, _⟩
  cases hwd : w.data with
  | nil =>
    have heq : chAt (w ++ b) 0 = chAt b 0 := by
      unfold chAt
      rw [String.data_append, hwd, List.nil_append]
    exact hb (heq ▸ hh)
  | cons c cs =>
    rw [chAt0_of_left b (by rw [hwd]; simp)] at hh
    have hc0 : (w.data)[0]? = some '\n' := hh
    rw [hwd] at hc0
    simp only [List.getElem?_cons_zero, Option.some.injEq] at hc0
    have hal := hw c (by rw [hwd]; exact List.mem_cons_self c cs)
    rw [hc0] at hal
    exact absurd hal (by decide)

theorem not_headerShape_paramChunks {ts : Bool} :
    ∀ (l : List (String × Ty)) (i : Nat), ∀ c ∈ paramChunksAux ts i l, ¬ HeaderShape c := by
  intro l
  induction l with
  | nil => intro i c hc; cases hc
  | cons p rest ih =>
    intro i c hc
    unfold paramChunksAux at hc
    simp only [List.mem_append, List.mem_singleton] at hc
    rcases hc with ((hc | hc) | hc) | hc
    · split at hc
      · rcases List.mem_singleton.mp hc with rfl
        exact not_headerShape_of_chAt0 (by decide)
      · cases hc
    · subst hc
      exact not_headerShape_of_alnum (toMixedCase_alnum _)
    · split at hc
      · rcases List.mem_singleton.mp hc with rfl
        refine not_headerShape_of_chAt0 ?_
        rw [chAt0_of_left _ (by decide)]
        decide
      · cases hc
    · exact ih (i + 1) c hc

theorem not_headerShape_argChunks :
    ∀ (l : List (String × Ty)) (i : Nat), ∀ c ∈ argChunksAux i l, ¬ HeaderShape c := by
  intro l
  induction l with
  | nil => intro i c hc; cases hc
  | cons p rest ih =>
    intro i c hc
    unfold argChunksAux at hc
    simp only [List.mem_append, List.mem_singleton] at hc
    rcases hc with (hc | hc) | hc
    · split at hc
      · rcases List.mem_singleton.mp hc with rfl
        exact not_headerShape_of_chAt0 (by decide)
      · cases hc
    · subst hc
      unfold argExpr
      split
      · exact not_headerShape_of_chAt0 (by decide)
      · split
        · refine not_headerShape_of_chAt0 ?_
          rw [chAt0_of_left _ (str_data_ne_nil _ (by decide)), chAt0_of_left _ (by decide)]
          decide
        · split
          · exact not_headerShape_of_alnum_head _ (toMixedCase_alnum _) (by decide)
          · exact not_headerShape_of_alnum (toMixedCase_alnum _)
    · exact ih (i + 1) c hc

/-- No chunk emitted by `write_fn` has the class-header shape. -/
theorem not_headerShape_writeFn {f : Function} {ts : Bool} :
    ∀ c ∈ writeFnChunks f ts, ¬ HeaderShape c := by
  intro c hc
  unfold writeFnChunks at hc
  simp only [List.mem_append, List.mem_singleton] at hc
  rcases hc with ((((((((((((hc | hc) | hc) | hc) | hc) | hc) | hc) | hc) | hc) | hc) | hc) | hc) | hc) | hc
  · split at hc
    · cases hc
    · unfold docChunks at hc
      simp only [List.mem_append, List.mem_singleton, List.mem_map] at hc
      rcases hc with ((hc | hc) | hc) | hc
      · subst hc
        exact not_headerShape_of_last '*' (by decide) (by decide)
      · obtain ⟨p, _, rfl⟩ := hc
        unfold docParamChunk
        refine not_headerShape_of_alnum_tail (toMixedCase_alnum _) ?_
        rw [strLast_concat (by decide)]
        decide
      · split at hc
        · rcases List.mem_singleton.mp hc with rfl
          exact not_headerShape_of_last '\x7d'
            ((strLast_concat (by decide)).trans (by decide)) (by decide)
        · cases hc
      · subst hc
        exact not_headerShape_of_last '/' (by decide) (by decide)
  · subst hc
    unfold sigOpenChunk
    exact not_headerShape_of_last '(' (strLast_concat (by decide)) (by decide)
  · exact not_headerShape_paramChunks _ 0 c hc
  · subst hc
    unfold sigCloseChunk
    split
    · refine not_headerShape_of_chAt0 ?_
      rw [chAt0_of_left _ (str_data_ne_nil _ (by decide)), chAt0_of_left _ (by decide)]
      decide
    · exact not_headerShape_of_chAt0 (by decide)
  · obtain ⟨p, _, hsome⟩ := List.mem_filterMap.mp hc
    split at hsome
    · rcases Option.some.inj hsome with rfl
      unfold mkCheck
      refine not_headerShape_of_chAt0 ?_
      rw [chAt0_of_left _ (str_data_ne_nil _ (str_data_ne_nil _ (str_data_ne_nil _ (by decide))))]
      rw [chAt0_of_left _ (str_data_ne_nil _ (str_data_ne_nil _ (by decide)))]
      rw [chAt0_of_left _ (str_data_ne_nil _ (by decide))]
      rw [chAt0_of_left _ (by decide)]
      decide
    · cases hsome
  · unfold resultOpenChunks at hc
    split at hc
    · split at hc
      · rcases List.mem_singleton.mp hc with rfl
        refine not_headerShape_of_chAt0 ?_
        rw [chAt0_of_left _ (str_data_ne_nil _ (by decide)), chAt0_of_left _ (by decide)]
        decide
      · rcases List.mem_singleton.mp hc with rfl
        exact not_headerShape_of_chAt0 (by decide)
    · cases hc
  · subst hc
    unfold callChunk
    refine not_headerShape_of_chAt0 ?_
    rw [chAt0_of_left _ (str_data_ne_nil _ (by decide)), chAt0_of_left _ (by decide)]
    decide
  · exact not_headerShape_argChunks _ 0 c hc
  · subst hc
    exact not_headerShape_of_chAt0 (by decide)
  · unfold resultCloseChunks at hc
    split at hc
    · rcases List.mem_singleton.mp hc with rfl
      exact not_headerShape_of_chAt0 (by decide)
    · cases hc
  · subst hc
    exact not_headerShape_of_chAt0 (by decide)
  · obtain ⟨p, _, hsome⟩ := List.mem_filterMap.mp hc
    split at hsome
    · rcases Option.some.inj hsome with rfl
      refine not_headerShape_of_last ';' ?_ (by decide)
      unfold mkNulling
      rw [strLast_concat (by decide)]
      decide
    · cases hsome
  · unfold resultFinish at hc
    split at hc
    · simp only [List.mem_append, List.mem_singleton] at hc
      rcases hc with hc | hc
      · split at hc
        · rcases List.mem_singleton.mp hc with rfl
          exact not_headerShape_of_last '\x7d' (by decide) (by decide)
        · cases hc
      · subst hc
        split <;> exact not_headerShape_of_last ';' (by decide) (by decide)
    · cases hc
  · subst hc
    exact not_headerShape_of_last '\x7d' (by decide) (by decide)

/-- The data determining a signature opener: staticness and the mixed-case
method name. -/
def sigKey (f : Function) : Bool × String :=
  (f.is_static, toMixedCase f.method)

theorem not_sigShape_sigClose (f : Function) (ts : Bool) :
    ¬ SigShape (sigCloseChunk f ts) := by
  unfold sigCloseChunk
  split
  · refine not_sigShape_of_chAt0 ?_
    rw [chAt0_of_left _ (str_data_ne_nil _ (by decide)), chAt0_of_left _ (by decide)]
    decide
  · exact not_sigShape_of_chAt0 (by decide)

theorem count_sig_zero (g : Function) (P : List String)
    (hP : ∀ c ∈ P, ¬ SigShape c) : P.count (sigOpenChunk g) = 0 := by
  rw [List.count_eq_zero]
  intro hmem
  exact hP _ hmem (sigShape_sigOpen g)

theorem sigOpen_inj {f g : Function} (he : sigOpenChunk f = sigOpenChunk g) :
    sigKey f = sigKey g := by
  have hd := congrArg String.data he
  unfold sigOpenChunk at hd
  unfold sigKey
  cases hf : f.is_static <;> cases hg : g.is_static <;>
    simp only [hf, hg, Bool.false_eq_true, eq_self_iff_true, if_true, if_false,
      String.data_append, List.append_assoc] at hd ⊢
  · exact congrArg (Prod.mk false) (String.ext
      (List.append_cancel_right (List.append_cancel_left hd)))
  · have h1 := List.append_cancel_left hd
    simp only [List.nil_append] at h1
    have hsp : ' ' ∈ (toMixedCase f.method).data ++ ['('] := by
      rw [h1]
      exact List.mem_append.mpr (Or.inl (by decide))
    rcases List.mem_append.mp hsp with hm | hm
    · exact absurd (toMixedCase_alnum f.method ' ' hm) (by decide)
    · exact absurd hm (by decide)
  · have h1 := List.append_cancel_left hd
    simp only [List.nil_append] at h1
    have hsp : ' ' ∈ (toMixedCase g.method).data ++ ['('] := by
      rw [← h1]
      exact List.mem_append.mpr (Or.inl (by decide))
    rcases List.mem_append.mp hsp with hm | hm
    · exact absurd (toMixedCase_alnum g.method ' ' hm) (by decide)
    · exact absurd hm (by decide)
  · exact congrArg (Prod.mk true) (String.ext
      (List.append_cancel_right (List.append_cancel_left (List.append_cancel_left hd))))

theorem count_sig_writeFn (g f : Function) (ts : Bool) :
    (writeFnChunks f ts).count (sigOpenChunk g) =
      if sigOpenChunk f = sigOpenChunk g then 1 else 0 := by
  have h1 : (if ts then [] else docChunks f).count (sigOpenChunk g) = 0 := by
    refine count_sig_zero g _ ?_
    intro c hc
    split at hc
    · cases hc
    · exact not_sigShape_docChunks c hc
  have h2 : (paramChunksAux ts 0 (f.inputs.drop (if f.is_static then 0 else 1))).count
      (sigOpenChunk g) = 0 :=
    count_sig_zero g _ (not_sigShape_paramChunks _ 0)
  have h3 : [sigCloseChunk f ts].count (sigOpenChunk g) = 0 := by
    refine count_sig_zero g _ ?_
    intro c hc
    rcases List.mem_singleton.mp hc with rfl
    exact not_sigShape_sigClose f ts
  have h4 : (disposalChecks f).count (sigOpenChunk g) = 0 :=
    count_sig_zero g _ not_sigShape_disposalChecks
  have h5 : (resultOpenChunks f).count (sigOpenChunk g) = 0 :=
    count_sig_zero g _ not_sigShape_resultOpen
  have h6 : [callChunk f].count (sigOpenChunk g) = 0 := by
    refine count_sig_zero g _ ?_
    intro c hc
    rcases List.mem_singleton.mp hc with rfl
    exact not_sigShape_callChunk f
  have h7 : (argChunksAux 0 f.inputs).count (sigOpenChunk g) = 0 :=
    count_sig_zero g _ (not_sigShape_argChunks _ 0)
  have h8 : ([")"] : List String).count (sigOpenChunk g) = 0 := by
    refine count_sig_zero g _ ?_
    intro c hc
    rcases List.mem_singleton.mp hc with rfl
    exact not_sigShape_of_chAt0 (by decide)
  have h9 : (resultCloseChunks f).count (sigOpenChunk g) = 0 := by
    refine count_sig_zero g _ ?_
    intro c hc
    unfold resultCloseChunks at hc
    split at hc
    · rcases List.mem_singleton.mp hc with rfl
      exact not_sigShape_of_chAt0 (by decide)
    · cases hc
  have h10 : ([";"] : List String).count (sigOpenChunk g) = 0 := by
    refine count_sig_zero g _ ?_
    intro c hc
    rcases List.mem_singleton.mp hc with rfl
    exact not_sigShape_of_chAt0 (by decide)
  have h11 : (handleNulling f).count (sigOpenChunk g) = 0 :=
    count_sig_zero g _ not_sigShape_handleNulling
  have h12 : (resultFinish f).count (sigOpenChunk g) = 0 :=
    count_sig_zero g _ not_sigShape_resultFinish
  have h13 : ([fnEndChunk] : List String).count (sigOpenChunk g) = 0 := by
    refine count_sig_zero g _ ?_
    intro c hc
    rcases List.mem_singleton.mp hc with rfl
    exact not_sigShape_of_last '\x7d' (by decide) (by decide)
  have h14 : [sigOpenChunk f].count (sigOpenChunk g) =
      if sigOpenChunk f = sigOpenChunk g then 1 else 0 := by
    by_cases he : sigOpenChunk f = sigOpenChunk g
    · rw [if_pos he, he]
      simp
    · rw [if_neg he, List.count_eq_zero]
      intro hm
      exact he (List.mem_singleton.mp hm).symm
  unfold writeFnChunks
  simp only [List.count_append]
  rw [h1, h2, h3, h4, h5, h6, h7, h8, h9, h10, h11, h12, h13, h14]
  omega

theorem lt_len_left {a : String} (b : String) {n : Nat} (h : n < a.data.length) :
    n < (a ++ b).data.length := by
  rw [String.data_append, List.length_append]
  omega

theorem last_refHeader (X : String) (ts : Bool) :
    (refHeaderChunk X ts).data.getLast? = some '\x7b' := by
  unfold refHeaderChunk
  rw [strLast_concat (by decide)]
  decide

theorem chAt_refHeader_ts (X : String) {n : Nat} (h : n < 14) :
    chAt (refHeaderChunk X true) n = chAt "\nexport class " n := by
  unfold refHeaderChunk
  simp only [eq_self_iff_true, if_true]
  have hA : n < (("\n" ++ "export ") ++ "class ").data.length := by
    have hl : (("\n" ++ "export ") ++ "class ").data.length = 14 := by decide
    omega
  rw [chAt_append_left _ (lt_len_left _ hA), chAt_append_left _ hA]
  unfold chAt
  rw [show (("\n" ++ "export ") ++ "class ").data = ("\nexport class ").data from by decide]

theorem chAt_refHeader_js (X : String) {n : Nat} (h : n < 7) :
    chAt (refHeaderChunk X false) n = chAt "\nclass " n := by
  unfold refHeaderChunk
  simp only [Bool.false_eq_true, if_false]
  have hA : n < (("\n" ++ "") ++ "class ").data.length := by
    have hl : (("\n" ++ "") ++ "class ").data.length = 7 := by decide
    omega
  rw [chAt_append_left _ (lt_len_left _ hA), chAt_append_left _ hA]
  unfold chAt
  rw [show (("\n" ++ "") ++ "class ").data = ("\nclass ").data from by decide]

theorem last_refMutHeader (X : String) (ts : Bool) :
    (refMutHeaderChunk X ts).data.getLast? = some '\x7b' := by
  unfold refMutHeaderChunk
  rw [strLast_concat (by decide)]
  decide

theorem chAt_refMutHeader (X : String) (ts : Bool) {n : Nat} (h : n < 33) :
    chAt (refMutHeaderChunk X ts) n =
      chAt "\n        this.ptr = ptr;\n    \x7d\n\x7d\n" n := by
  unfold refMutHeaderChunk
  have hA : n < ("\n        this.ptr = ptr;\n    \x7d\n\x7d\n").data.length := by
    have hl : ("\n        this.ptr = ptr;\n    \x7d\n\x7d\n").data.length = 33 := by decide
    omega
  rw [chAt_append_left _ (lt_len_left _ (lt_len_left _ (lt_len_left _ (lt_len_left _ (lt_len_left _ hA)))))]
  rw [chAt_append_left _ (lt_len_left _ (lt_len_left _ (lt_len_left _ (lt_len_left _ hA))))]
  rw [chAt_append_left _ (lt_len_left _ (lt_len_left _ (lt_len_left _ hA)))]
  rw [chAt_append_left _ (lt_len_left _ (lt_len_left _ hA))]
  rw [chAt_append_left _ (lt_len_left _ hA)]
  rw [chAt_append_left _ hA]

theorem last_ownHeader (X : String) (ts : Bool) :
    (ownHeaderChunk X ts).data.getLast? = some '\x7b' := by
  unfold ownHeaderChunk
  rw [strLast_concat (by decide)]
  decide

theorem chAt_ownHeader (X : String) (ts : Bool) {n : Nat} (h : n < 3) :
    chAt (ownHeaderChunk X ts) n = chAt "\n\x7d\n" n := by
  unfold ownHeaderChunk
  have hA : n < ("\n\x7d\n").data.length := by
    have hl : ("\n\x7d\n").data.length = 3 := by decide
    omega
  rw [chAt_append_left _ (lt_len_left _ (lt_len_left _ (lt_len_left _ (lt_len_left _ (lt_len_left _ hA)))))]
  rw [chAt_append_left _ (lt_len_left _ (lt_len_left _ (lt_len_left _ (lt_len_left _ hA))))]
  rw [chAt_append_left _ (lt_len_left _ (lt_len_left _ (lt_len_left _ hA)))]
  rw [chAt_append_left _ (lt_len_left _ (lt_len_left _ hA))]
  rw [chAt_append_left _ (lt_len_left _ hA)]
  rw [chAt_append_left _ hA]

theorem last_withOpen (X : String) (ts : Bool) :
    (withOpenChunk X ts).data.getLast? = some '\x7b' := by
  unfold withOpenChunk
  split <;> (rw [strLast_concat (by decide)]; decide)

theorem chAt_withOpen_ts (X : String) {n : Nat} (h : n < 25) :
    chAt (withOpenChunk X true) n = chAt "\n    with(closure: (obj: " n := by
  unfold withOpenChunk
  simp only [eq_self_iff_true, if_true]
  have hA : n < ("\n    with(closure: (obj: ").data.length := by
    have hl : ("\n    with(closure: (obj: ").data.length = 25 := by decide
    omega
  rw [chAt_append_left _ (lt_len_left _ hA), chAt_append_left _ hA]

theorem chAt_withOpen_js (X : String) {n : Nat} (h : n < 33) :
    chAt (withOpenChunk X false) n = chAt "\n    /**\n     * @param \x7bfunction(" n := by
  unfold withOpenChunk
  simp only [Bool.false_eq_true, if_false]
  have hA : n < ("\n    /**\n     * @param \x7bfunction(").data.length := by
    have hl : ("\n    /**\n     * @param \x7bfunction(").data.length = 33 := by decide
    omega
  rw [chAt_append_left _ (lt_len_left _ hA), chAt_append_left _ hA]

theorem last_dropCall {c : Class} :
    ∀ s ∈ dropCallChunks c, s.data.getLast? = some ';' := by
  intro s hs
  unfold dropCallChunks at hs
  split at hs
  · rcases List.mem_singleton.mp hs with rfl
    rw [strLast_concat (by decide)]
    decide
  · cases hs

theorem last_footer (X : String) (ts : Bool) :
    (classFooterChunk X ts).data.getLast? = some '\n' := by
  unfold classFooterChunk
  rw [strLast_concat (by decide)]
  decide

theorem headerShape_refHeader (X : String) (ts : Bool) :
    HeaderShape (refHeaderChunk X ts) := by
  refine ⟨?_, last_refHeader X ts⟩
  cases ts
  · rw [chAt_refHeader_js X (by omega)]
    decide
  · rw [chAt_refHeader_ts X (by omega)]
    decide

theorem headerShape_refMutHeader (X : String) (ts : Bool) :
    HeaderShape (refMutHeaderChunk X ts) := by
  refine ⟨?_, last_refMutHeader X ts⟩
  rw [chAt_refMutHeader X ts (by omega)]
  decide

theorem headerShape_ownHeader (X : String) (ts : Bool) :
    HeaderShape (ownHeaderChunk X ts) := by
  refine ⟨?_, last_ownHeader X ts⟩
  rw [chAt_ownHeader X ts (by omega)]
  decide

theorem ne_of_chAt {s t : String} (n : Nat) (h : chAt s n ≠ chAt t n) : s ≠ t :=
  fun he => h (he ▸ rfl)

theorem refHeader_ne_ctorOpen (X : String) (ts : Bool) :
    refHeaderChunk X ts ≠ ctorOpenChunk ts := by
  cases ts
  · refine ne_of_chAt 1 ?_
    rw [chAt_refHeader_js X (by omega)]
    decide
  · refine ne_of_chAt 1 ?_
    rw [chAt_refHeader_ts X (by omega)]
    decide

theorem refHeader_ne_refMutHeader (X : String) (ts : Bool) :
    refHeaderChunk X ts ≠ refMutHeaderChunk X ts := by
  refine ne_of_chAt 1 ?_
  rw [chAt_refMutHeader X ts (by omega)]
  cases ts
  · rw [chAt_refHeader_js X (by omega)]
    decide
  · rw [chAt_refHeader_ts X (by omega)]
    decide

theorem refHeader_ne_ownHeader (X : String) (ts : Bool) :
    refHeaderChunk X ts ≠ ownHeaderChunk X ts := by
  refine ne_of_chAt 1 ?_
  rw [chAt_ownHeader X ts (by omega)]
  cases ts
  · rw [chAt_refHeader_js X (by omega)]
    decide
  · rw [chAt_refHeader_ts X (by omega)]
    decide

theorem refHeader_ne_withOpen (X : String) (ts : Bool) :
    refHeaderChunk X ts ≠ withOpenChunk X ts := by
  refine ne_of_chAt 1 ?_
  cases ts
  · rw [chAt_refHeader_js X (by omega), chAt_withOpen_js X (by omega)]
    decide
  · rw [chAt_refHeader_ts X (by omega), chAt_withOpen_ts X (by omega)]
    decide

theorem refHeader_ne_wdo (X : String) (ts : Bool) :
    refHeaderChunk X ts ≠ withDisposeOpenChunk := by
  refine ne_of_chAt 1 ?_
  cases ts
  · rw [chAt_refHeader_js X (by omega)]
    decide
  · rw [chAt_refHeader_ts X (by omega)]
    decide

theorem refMutHeader_ne_ctorOpen (X : String) (ts : Bool) :
    refMutHeaderChunk X ts ≠ ctorOpenChunk ts := by
  refine ne_of_chAt 5 ?_
  rw [chAt_refMutHeader X ts (by omega)]
  cases ts <;> decide

theorem refMutHeader_ne_ownHeader (X : String) (ts : Bool) :
    refMutHeaderChunk X ts ≠ ownHeaderChunk X ts := by
  refine ne_of_chAt 1 ?_
  rw [chAt_refMutHeader X ts (by omega), chAt_ownHeader X ts (by omega)]
  decide

theorem refMutHeader_ne_withOpen (X : String) (ts : Bool) :
    refMutHeaderChunk X ts ≠ withOpenChunk X ts := by
  refine ne_of_chAt 5 ?_
  rw [chAt_refMutHeader X ts (by omega)]
  cases ts
  · rw [chAt_withOpen_js X (by omega)]
    decide
  · rw [chAt_withOpen_ts X (by omega)]
    decide

theorem refMutHeader_ne_wdo (X : String) (ts : Bool) :
    refMutHeaderChunk X ts ≠ withDisposeOpenChunk := by
  refine ne_of_chAt 10 ?_
  rw [chAt_refMutHeader X ts (by omega)]
  decide

theorem ownHeader_ne_ctorOpen (X : String) (ts : Bool) :
    ownHeaderChunk X ts ≠ ctorOpenChunk ts := by
  refine ne_of_chAt 1 ?_
  rw [chAt_ownHeader X ts (by omega)]
  cases ts <;> decide

theorem ownHeader_ne_withOpen (X : String) (ts : Bool) :
    ownHeaderChunk X ts ≠ withOpenChunk X ts := by
  refine ne_of_chAt 1 ?_
  rw [chAt_ownHeader X ts (by omega)]
  cases ts
  · rw [chAt_withOpen_js X (by omega)]
    decide
  · rw [chAt_withOpen_ts X (by omega)]
    decide

theorem ownHeader_ne_wdo (X : String) (ts : Bool) :
    ownHeaderChunk X ts ≠ withDisposeOpenChunk := by
  refine ne_of_chAt 1 ?_
  rw [chAt_ownHeader X ts (by omega)]
  decide

theorem count_one_of_split (A B : List String) {l : List String} {x : String}
    (hl : l = A ++ x :: B) (hA : x ∉ A) (hB : x ∉ B) : l.count x = 1 := by
  subst hl
  rw [List.count_append, List.count_cons_self,
    List.count_eq_zero.mpr hA, List.count_eq_zero.mpr hB]

instance (c : String) : Decidable (HeaderShape c) := by
  unfold HeaderShape; infer_instance

instance (c : String) : Decidable (SigShape c) := by
  unfold SigShape; infer_instance

theorem not_headerShape_flatten (L : List Function) (ts : Bool) :
    ∀ x ∈ (L.map (fun f => writeFnChunks f ts)).flatten, ¬ HeaderShape x := by
  intro x hx
  obtain ⟨l, hl, hxl⟩ := List.mem_flatten.mp hx
  obtain ⟨f, _, rfl⟩ := List.mem_map.mp hl
  exact not_headerShape_writeFn x hxl

theorem count_headerlike (X : String) (c : Class) (ts : Bool) {s : String}
    (hh : HeaderShape s) :
    (writeClassChunks X c ts).count s =
      ([refHeaderChunk X ts] ++ [ctorOpenChunk ts, refMutHeaderChunk X ts]
        ++ [ownHeaderChunk X ts, withOpenChunk X ts, withDisposeOpenChunk]).count s := by
  have hzero : ∀ (P : List String), (∀ x ∈ P, ¬ HeaderShape x) → P.count s = 0 := by
    intro P hP
    rw [List.count_eq_zero]
    intro hm
    exact hP s hm hh
  unfold writeClassChunks
  simp only [List.count_append]
  rw [hzero (ptrFieldChunks ts) ?hptr]
  case hptr =>
    intro x hx
    unfold ptrFieldChunks at hx
    split at hx
    · rcases List.mem_singleton.mp hx with rfl
      decide
    · cases hx
  rw [hzero _ (not_headerShape_flatten c.shared_fns ts)]
  rw [hzero _ (not_headerShape_flatten c.mut_fns ts)]
  rw [hzero _ (not_headerShape_flatten (ownTierFns c) ts)]
  rw [hzero (sharedTimerExtra X ts) ?hst]
  case hst =>
    intro x hx
    unfold sharedTimerExtra at hx
    split at hx
    · rcases List.mem_singleton.mp hx with rfl
      split <;> decide
    · cases hx
  rw [hzero (dropCallChunks c) ?hdc]
  case hdc =>
    intro x hx
    exact not_headerShape_of_last ';' (last_dropCall x hx) (by decide)
  rw [hzero [disposeCloseChunk] ?hdx]
  case hdx =>
    intro x hx
    rcases List.mem_singleton.mp hx with rfl
    decide
  rw [hzero (runExtra X ts) ?hre]
  case hre =>
    intro x hx
    unfold runExtra at hx
    split at hx
    · rcases List.mem_singleton.mp hx with rfl
      split <;> decide
    · cases hx
  rw [hzero [classFooterChunk X ts] ?hft]
  case hft =>
    intro x hx
    rcases List.mem_singleton.mp hx with rfl
    exact not_headerShape_of_last '\n' (last_footer X ts) (by decide)
  omega
theorem count_refHeader_one (X : String) (c : Class) (ts : Bool) :
    (writeClassChunks X c ts).count (refHeaderChunk X ts) = 1 := by
  rw [count_headerlike X c ts (headerShape_refHeader X ts)]
  refine count_one_of_split []
    [ctorOpenChunk ts, refMutHeaderChunk X ts, ownHeaderChunk X ts,
     withOpenChunk X ts, withDisposeOpenChunk] (by simp) (List.not_mem_nil _) ?_
  intro hm
  simp only [List.mem_cons, List.not_mem_nil, or_false] at hm
  rcases hm with h | h | h | h | h
  · exact refHeader_ne_ctorOpen X ts h
  · exact refHeader_ne_refMutHeader X ts h
  · exact refHeader_ne_ownHeader X ts h
  · exact refHeader_ne_withOpen X ts h
  · exact refHeader_ne_wdo X ts h

theorem count_refMutHeader_one (X : String) (c : Class) (ts : Bool) :
    (writeClassChunks X c ts).count (refMutHeaderChunk X ts) = 1 := by
  rw [count_headerlike X c ts (headerShape_refMutHeader X ts)]
  refine count_one_of_split [refHeaderChunk X ts, ctorOpenChunk ts]
    [ownHeaderChunk X ts, withOpenChunk X ts, withDisposeOpenChunk] (by simp) ?_ ?_
  · intro hm
    simp only [List.mem_cons, List.not_mem_nil, or_false] at hm
    rcases hm with h | h
    · exact refHeader_ne_refMutHeader X ts h.symm
    · exact refMutHeader_ne_ctorOpen X ts h
  · intro hm
    simp only [List.mem_cons, List.not_mem_nil, or_false] at hm
    rcases hm with h | h | h
    · exact refMutHeader_ne_ownHeader X ts h
    · exact refMutHeader_ne_withOpen X ts h
    · exact refMutHeader_ne_wdo X ts h

theorem count_ownHeader_one (X : String) (c : Class) (ts : Bool) :
    (writeClassChunks X c ts).count (ownHeaderChunk X ts) = 1 := by
  rw [count_headerlike X c ts (headerShape_ownHeader X ts)]
  refine count_one_of_split [refHeaderChunk X ts, ctorOpenChunk ts, refMutHeaderChunk X ts]
    [withOpenChunk X ts, withDisposeOpenChunk] (by simp) ?_ ?_
  · intro hm
    simp only [List.mem_cons, List.not_mem_nil, or_false] at hm
    rcases hm with h | h | h
    · exact refHeader_ne_ownHeader X ts h.symm
    · exact ownHeader_ne_ctorOpen X ts h
    · exact refMutHeader_ne_ownHeader X ts h.symm
  · intro hm
    simp only [List.mem_cons, List.not_mem_nil, or_false] at hm
    rcases hm with h | h
    · exact ownHeader_ne_withOpen X ts h
    · exact ownHeader_ne_wdo X ts h

theorem count_sig_writeClass (g : Function) (X : String) (c : Class) (ts : Bool) :
    (writeClassChunks X c ts).count (sigOpenChunk g) =
      ((c.shared_fns.map (fun h => writeFnChunks h ts)).flatten).count (sigOpenChunk g)
      + ((c.mut_fns.map (fun h => writeFnChunks h ts)).flatten).count (sigOpenChunk g)
      + (((ownTierFns c).map (fun h => writeFnChunks h ts)).flatten).count (sigOpenChunk g) := by
  have hzero : ∀ (P : List String), (∀ x ∈ P, x.data.getLast? ≠ some '(') →
      P.count (sigOpenChunk g) = 0 := by
    intro P hP
    rw [List.count_eq_zero]
    intro hm
    exact hP _ hm (sigShape_sigOpen g).2
  unfold writeClassChunks
  simp only [List.count_append]
  rw [hzero [refHeaderChunk X ts] ?h1]
  case h1 =>
    intro x hx
    rcases List.mem_singleton.mp hx with rfl
    rw [last_refHeader]
    decide
  rw [hzero (ptrFieldChunks ts) ?h2]
  case h2 =>
    intro x hx
    unfold ptrFieldChunks at hx
    split at hx
    · rcases List.mem_singleton.mp hx with rfl
      decide
    · cases hx
  rw [hzero (sharedTimerExtra X ts) ?h3]
  case h3 =>
    intro x hx
    unfold sharedTimerExtra at hx
    split at hx
    · rcases List.mem_singleton.mp hx with rfl
      split <;> decide
    · cases hx
  rw [hzero [ctorOpenChunk ts, refMutHeaderChunk X ts] ?h4]
  case h4 =>
    intro x hx
    rcases List.mem_cons.mp hx with rfl | hx
    · cases ts <;> decide
    · rcases List.mem_singleton.mp hx with rfl
      rw [last_refMutHeader]
      decide
  rw [hzero [ownHeaderChunk X ts, withOpenChunk X ts, withDisposeOpenChunk] ?h5]
  case h5 =>
    intro x hx
    rcases List.mem_cons.mp hx with rfl | hx
    · rw [last_ownHeader]
      decide
    · rcases List.mem_cons.mp hx with rfl | hx
      · rw [last_withOpen]
        decide
      · rcases List.mem_singleton.mp hx with rfl
        decide
  rw [hzero (dropCallChunks c) ?h6]
  case h6 =>
    intro x hx
    rw [last_dropCall x hx]
    decide
  rw [hzero [disposeCloseChunk] ?h7]
  case h7 =>
    intro x hx
    rcases List.mem_singleton.mp hx with rfl
    decide
  rw [hzero (runExtra X ts) ?h8]
  case h8 =>
    intro x hx
    unfold runExtra at hx
    split at hx
    · rcases List.mem_singleton.mp hx with rfl
      split <;> decide
    · cases hx
  rw [hzero [classFooterChunk X ts] ?h9]
  case h9 =>
    intro x hx
    rcases List.mem_singleton.mp hx with rfl
    rw [last_footer]
    decide
  omega

theorem count_sig_flatten (g : Function) (L : List Function) (ts : Bool) :
    ((L.map (fun h => writeFnChunks h ts)).flatten).count (sigOpenChunk g) =
      (L.map (fun h => if sigOpenChunk h = sigOpenChunk g then 1 else 0)).sum := by
  rw [List.count_flatten, List.map_map]
  rw [List.map_congr_left ?_]
  intro h _
  exact count_sig_writeFn g h ts

theorem sum_sig_zero (g : Function) (L : List Function)
    (h : ∀ f ∈ L, sigOpenChunk f ≠ sigOpenChunk g) :
    (L.map (fun f => if sigOpenChunk f = sigOpenChunk g then 1 else 0)).sum = 0 := by
  rw [List.sum_eq_zero]
  intro x hx
  obtain ⟨f, hf, rfl⟩ := List.mem_map.mp hx
  rw [if_neg (h f hf)]

theorem sum_sig_one (g : Function) (L : List Function)
    (hnd : (L.map sigKey).Nodup) (hmem : g ∈ L) :
    (L.map (fun f => if sigOpenChunk f = sigOpenChunk g then 1 else 0)).sum = 1 := by
  induction L with
  | nil => cases hmem
  | cons f rest ih =>
    rw [List.map_cons, List.nodup_cons] at hnd
    rcases List.mem_cons.mp hmem with rfl | hg
    · rw [List.map_cons, List.sum_cons, if_pos rfl]
      have hz : (rest.map (fun f => if sigOpenChunk f = sigOpenChunk g then 1 else 0)).sum = 0 := by
        rw [List.sum_eq_zero]
        intro x hx
        obtain ⟨h, hh, rfl⟩ := List.mem_map.mp hx
        rw [if_neg ?hne]
        case hne =>
          intro he
          exact hnd.1 (sigOpen_inj he ▸ List.mem_map_of_mem sigKey hh)
      rw [hz]
    · rw [List.map_cons, List.sum_cons, if_neg ?hne2, ih hnd.2 hg]
      case hne2 =>
        intro he
        exact hnd.1 (sigOpen_inj he ▸ List.mem_map_of_mem sigKey hg)

/-- The `XRef` tier of the emitted hierarchy, as the claim describes it:
the class header, the typed-mode `ptr` field, the shared methods, the
`SharedTimer` extension if keyed, and the constructor opener. -/
def sharedTierChunks (X : String) (c : Class) (ts : Bool) : List String :=
  [refHeaderChunk X ts] ++ ptrFieldChunks ts
    ++ (c.shared_fns.map (fun f => writeFnChunks f ts)).flatten
    ++ sharedTimerExtra X ts ++ [ctorOpenChunk ts]

/-- The `XRefMut` tier: its header (which also closes `XRef`) followed by
exactly the `mut_fns` methods. -/
def mutTierChunks (X : String) (c : Class) (ts : Bool) : List String :=
  [refMutHeaderChunk X ts] ++ (c.mut_fns.map (fun f => writeFnChunks f ts)).flatten

/-- The owning tier: its header, `with`/`dispose`, the static and own
methods minus `drop`, the `Run` extension if keyed, and the footer. -/
def owningTierChunks (X : String) (c : Class) (ts : Bool) : List String :=
  [ownHeaderChunk X ts, withOpenChunk X ts, withDisposeOpenChunk]
    ++ dropCallChunks c ++ [disposeCloseChunk]
    ++ ((ownTierFns c).map (fun f => writeFnChunks f ts)).flatten
    ++ runExtra X ts ++ [classFooterChunk X ts]

theorem writeClass_eq_tiers (X : String) (c : Class) (ts : Bool) :
    writeClassChunks X c ts =
      sharedTierChunks X c ts ++ mutTierChunks X c ts ++ owningTierChunks X c ts := by
  simp [writeClassChunks, sharedTierChunks, mutTierChunks, owningTierChunks]

theorem sig_mem_writeFn (g : Function) (ts : Bool) :
    sigOpenChunk g ∈ writeFnChunks g ts := by
  unfold writeFnChunks
  simp

theorem sig_ne_of_last {g : Function} {t : String} (x : Char)
    (h : t.data.getLast? = some x) (hx : x ≠ '(') : sigOpenChunk g ≠ t := by
  intro he
  have hl := (sigShape_sigOpen g).2
  rw [he, h] at hl
  exact hx (Option.some.inj hl)

theorem sig_notin_writeFn_flatten {g : Function} {L : List Function} {ts : Bool}
    (h : ∀ f ∈ L, sigKey f ≠ sigKey g) :
    sigOpenChunk g ∉ (L.map (fun f => writeFnChunks f ts)).flatten := by
  intro hm
  obtain ⟨l, hl, hcl⟩ := List.mem_flatten.mp hm
  obtain ⟨f, hf, rfl⟩ := List.mem_map.mp hl
  exact h f hf (sigOpen_inj (sig_eq_of_sigShape hcl (sigShape_sigOpen g))).symm

theorem sig_notin_sharedTier {g : Function} {X : String} {c : Class} {ts : Bool}
    (h : ∀ f ∈ c.shared_fns, sigKey f ≠ sigKey g) :
    sigOpenChunk g ∉ sharedTierChunks X c ts := by
  intro hm
  unfold sharedTierChunks at hm
  simp only [List.mem_append, List.mem_singleton] at hm
  rcases hm with (((hm | hm) | hm) | hm) | hm
  · exact sig_ne_of_last '\x7b' (last_refHeader X ts) (by decide) hm
  · unfold ptrFieldChunks at hm
    split at hm
    · rcases List.mem_singleton.mp hm with hm
      exact sig_ne_of_last ';' (by decide) (by decide) hm
    · cases hm
  · exact sig_notin_writeFn_flatten h hm
  · unfold sharedTimerExtra at hm
    split at hm
    · rcases List.mem_singleton.mp hm with hm
      revert hm
      split
      · exact sig_ne_of_last '\x7d' (by decide) (by decide)
      · exact sig_ne_of_last '\x7d' (by decide) (by decide)
    · cases hm
  · cases ts
    · exact sig_ne_of_last '\x7b' (by decide) (by decide) hm
    · exact sig_ne_of_last '\x7b' (by decide) (by decide) hm

theorem sig_notin_mutTier {g : Function} {X : String} {c : Class} {ts : Bool}
    (h : ∀ f ∈ c.mut_fns, sigKey f ≠ sigKey g) :
    sigOpenChunk g ∉ mutTierChunks X c ts := by
  intro hm
  unfold mutTierChunks at hm
  simp only [List.mem_append, List.mem_singleton] at hm
  rcases hm with hm | hm
  · exact sig_ne_of_last '\x7b' (last_refMutHeader X ts) (by decide) hm
  · exact sig_notin_writeFn_flatten h hm

theorem sig_notin_owningTier {g : Function} {X : String} {c : Class} {ts : Bool}
    (h : ∀ f ∈ ownTierFns c, sigKey f ≠ sigKey g) :
    sigOpenChunk g ∉ owningTierChunks X c ts := by
  intro hm
  unfold owningTierChunks at hm
  simp only [List.mem_append] at hm
  rcases hm with ((((hm | hm) | hm) | hm) | hm) | hm
  · rcases List.mem_cons.mp hm with hm | hm
    · exact sig_ne_of_last '\x7b' (last_ownHeader X ts) (by decide) hm
    · rcases List.mem_cons.mp hm with hm | hm
      · exact sig_ne_of_last '\x7b' (last_withOpen X ts) (by decide) hm
      · rcases List.mem_singleton.mp hm with hm
        exact sig_ne_of_last '\x7b' (by decide) (by decide) hm
  · exact sig_ne_of_last ';' (last_dropCall _ hm) (by decide) rfl
  · rcases List.mem_singleton.mp hm with hm
    exact sig_ne_of_last '\x7d' (by decide) (by decide) hm
  · exact sig_notin_writeFn_flatten h hm
  · unfold runExtra at hm
    split at hm
    · rcases List.mem_singleton.mp hm with hm
      revert hm
      split
      · exact sig_ne_of_last '\x7d' (by decide) (by decide)
      · exact sig_ne_of_last '\x7d' (by decide) (by decide)
    · cases hm
  · rcases List.mem_singleton.mp hm with hm
    exact sig_ne_of_last '\n' (last_footer X ts) (by decide) hm

/-- C6: for a class with at least one function in each category, the
emitted chunk stream is exactly the three tiers in order — `XRef` (shared
methods only), `XRefMut` (adding only the mut methods), the owning `X`
(adding the static and own methods minus `drop`) — each class header
occurring exactly once; every model function's method signature appears
exactly once, inside its declared tier and in no other tier, and the `drop`
destructor's signature appears nowhere.  (Method signatures are assumed
pairwise distinct — `sigKey` nodup — since methods are identified by
name.) -/
theorem C6_tier_structure :
    ∀ (X : String) (c : Class) (ts : Bool),
      c.static_fns ≠ [] → c.own_fns ≠ [] → c.shared_fns ≠ [] → c.mut_fns ≠ [] →
      ((classAllFns c).map sigKey).Nodup →
      (writeClassChunks X c ts =
        sharedTierChunks X c ts ++ mutTierChunks X c ts ++ owningTierChunks X c ts) ∧
      ((writeClassChunks X c ts).count (refHeaderChunk X ts) = 1 ∧
       (writeClassChunks X c ts).count (refMutHeaderChunk X ts) = 1 ∧
       (writeClassChunks X c ts).count (ownHeaderChunk X ts) = 1) ∧
      (∀ g ∈ c.shared_fns,
        (writeClassChunks X c ts).count (sigOpenChunk g) = 1 ∧
        sigOpenChunk g ∈ sharedTierChunks X c ts ∧
        sigOpenChunk g ∉ mutTierChunks X c ts ∧
        sigOpenChunk g ∉ owningTierChunks X c ts) ∧
      (∀ g ∈ c.mut_fns,
        (writeClassChunks X c ts).count (sigOpenChunk g) = 1 ∧
        sigOpenChunk g ∈ mutTierChunks X c ts ∧
        sigOpenChunk g ∉ sharedTierChunks X c ts ∧
        sigOpenChunk g ∉ owningTierChunks X c ts) ∧
      (∀ g ∈ c.static_fns ++ c.own_fns, g.method ≠ "drop" →
        (writeClassChunks X c ts).count (sigOpenChunk g) = 1 ∧
        sigOpenChunk g ∈ owningTierChunks X c ts ∧
        sigOpenChunk g ∉ sharedTierChunks X c ts ∧
        sigOpenChunk g ∉ mutTierChunks X c ts) ∧
      (∀ g ∈ c.own_fns, g.method = "drop" →
        sigOpenChunk g ∉ writeClassChunks X c ts) := by
  intro X c ts _ _ _ _ hnd
  have hnd0 := hnd
  have hsplit : (classAllFns c).map sigKey =
      c.static_fns.map sigKey ++ (c.own_fns.map sigKey
        ++ (c.shared_fns.map sigKey ++ c.mut_fns.map sigKey)) := by
    simp [classAllFns]
  rw [hsplit] at hnd
  obtain ⟨hndSt, hnd1, hdisjSt⟩ := List.nodup_append.mp hnd
  obtain ⟨hndOwn, hnd2, hdisjOwn⟩ := List.nodup_append.mp hnd1
  obtain ⟨hndSh, hndMut, hdisjShMut⟩ := List.nodup_append.mp hnd2
  have hndStOwn : ((c.static_fns ++ c.own_fns).map sigKey).Nodup := by
    rw [List.map_append]
    refine List.nodup_append.mpr ⟨hndSt, hndOwn, ?_⟩
    intro k hk hk2
    exact hdisjSt hk (List.mem_append.mpr (Or.inl hk2))
  have hndOwnTier : ((ownTierFns c).map sigKey).Nodup := by
    have hsub : List.Sublist (ownTierFns c) (c.static_fns ++ c.own_fns) :=
      List.filter_sublist _
    exact List.Nodup.sublist (hsub.map sigKey) hndStOwn
  have hStOwnKey_notin_sh : ∀ {k}, k ∈ (c.static_fns ++ c.own_fns).map sigKey →
      k ∈ c.shared_fns.map sigKey → False := by
    intro k hk hsh
    rw [List.map_append] at hk
    rcases List.mem_append.mp hk with hk | hk
    · exact hdisjSt hk (List.mem_append.mpr (Or.inr (List.mem_append.mpr (Or.inl hsh))))
    · exact hdisjOwn hk (List.mem_append.mpr (Or.inl hsh))
  have hStOwnKey_notin_mut : ∀ {k}, k ∈ (c.static_fns ++ c.own_fns).map sigKey →
      k ∈ c.mut_fns.map sigKey → False := by
    intro k hk hmu
    rw [List.map_append] at hk
    rcases List.mem_append.mp hk with hk | hk
    · exact hdisjSt hk (List.mem_append.mpr (Or.inr (List.mem_append.mpr (Or.inr hmu))))
    · exact hdisjOwn hk (List.mem_append.mpr (Or.inr hmu))
  refine ⟨writeClass_eq_tiers X c ts,
    ⟨count_refHeader_one X c ts, count_refMutHeader_one X c ts, count_ownHeader_one X c ts⟩,
    ?_, ?_, ?_, ?_⟩
  · intro g hg
    have hKg : sigKey g ∈ c.shared_fns.map sigKey := List.mem_map_of_mem sigKey hg
    have hne_mut : ∀ f ∈ c.mut_fns, sigKey f ≠ sigKey g := by
      intro f hf he
      exact hdisjShMut hKg (he ▸ List.mem_map_of_mem sigKey hf)
    have hne_own : ∀ f ∈ ownTierFns c, sigKey f ≠ sigKey g := by
      intro f hf he
      have hf2 : f ∈ c.static_fns ++ c.own_fns := List.mem_of_mem_filter hf
      exact hStOwnKey_notin_sh (he ▸ List.mem_map_of_mem sigKey hf2) hKg
    refine ⟨?_, ?_, sig_notin_mutTier hne_mut, sig_notin_owningTier hne_own⟩
    · rw [count_sig_writeClass, count_sig_flatten, count_sig_flatten, count_sig_flatten,
        sum_sig_one g c.shared_fns hndSh hg,
        sum_sig_zero g c.mut_fns (fun f hf he => hne_mut f hf (sigOpen_inj he)),
        sum_sig_zero g (ownTierFns c) (fun f hf he => hne_own f hf (sigOpen_inj he))]
    · unfold sharedTierChunks
      simp only [List.mem_append]
      exact Or.inl (Or.inl (Or.inr (List.mem_flatten.mpr
        ⟨writeFnChunks g ts, List.mem_map_of_mem (fun f => writeFnChunks f ts) hg,
         sig_mem_writeFn g ts⟩)))
  · intro g hg
    have hKg : sigKey g ∈ c.mut_fns.map sigKey := List.mem_map_of_mem sigKey hg
    have hne_sh : ∀ f ∈ c.shared_fns, sigKey f ≠ sigKey g := by
      intro f hf he
      exact hdisjShMut (List.mem_map_of_mem sigKey hf) (he.symm ▸ hKg)
    have hne_own : ∀ f ∈ ownTierFns c, sigKey f ≠ sigKey g := by
      intro f hf he
      have hf2 : f ∈ c.static_fns ++ c.own_fns := List.mem_of_mem_filter hf
      exact hStOwnKey_notin_mut (he ▸ List.mem_map_of_mem sigKey hf2) hKg
    refine ⟨?_, ?_, sig_notin_sharedTier hne_sh, sig_notin_owningTier hne_own⟩
    · rw [count_sig_writeClass, count_sig_flatten, count_sig_flatten, count_sig_flatten,
        sum_sig_one g c.mut_fns hndMut hg,
        sum_sig_zero g c.shared_fns (fun f hf he => hne_sh f hf (sigOpen_inj he)),
        sum_sig_zero g (ownTierFns c) (fun f hf he => hne_own f hf (sigOpen_inj he))]
    · unfold mutTierChunks
      simp only [List.mem_append]
      exact Or.inr (List.mem_flatten.mpr
        ⟨writeFnChunks g ts, List.mem_map_of_mem (fun f => writeFnChunks f ts) hg,
         sig_mem_writeFn g ts⟩)
  · intro g hg hdrop
    have hgo : g ∈ ownTierFns c := by
      unfold ownTierFns
      refine List.mem_filter.mpr ⟨hg, ?_⟩
      simp [hdrop]
    have hKg : sigKey g ∈ (c.static_fns ++ c.own_fns).map sigKey :=
      List.mem_map_of_mem sigKey hg
    have hne_sh2 : ∀ f ∈ c.shared_fns, sigKey f ≠ sigKey g := by
      intro f hf he
      exact hStOwnKey_notin_sh hKg (he ▸ List.mem_map_of_mem sigKey hf)
    have hne_mut : ∀ f ∈ c.mut_fns, sigKey f ≠ sigKey g := by
      intro f hf he
      exact hStOwnKey_notin_mut hKg (he ▸ List.mem_map_of_mem sigKey hf)
    refine ⟨?_, ?_, sig_notin_sharedTier hne_sh2, sig_notin_mutTier hne_mut⟩
    · rw [count_sig_writeClass, count_sig_flatten, count_sig_flatten, count_sig_flatten,
        sum_sig_one g (ownTierFns c) hndOwnTier hgo,
        sum_sig_zero g c.shared_fns (fun f hf he => hne_sh2 f hf (sigOpen_inj he)),
        sum_sig_zero g c.mut_fns (fun f hf he => hne_mut f hf (sigOpen_inj he))]
    · unfold owningTierChunks
      simp only [List.mem_append]
      exact Or.inl (Or.inl (Or.inr (List.mem_flatten.mpr
        ⟨writeFnChunks g ts, List.mem_map_of_mem (fun f => writeFnChunks f ts) hgo,
         sig_mem_writeFn g ts⟩)))
  · intro g hg hdrop
    have hinj := List.inj_on_of_nodup_map hnd0
    have hgAll : g ∈ classAllFns c := by
      unfold classAllFns
      exact List.mem_append.mpr (Or.inl (List.mem_append.mpr
        (Or.inl (List.mem_append.mpr (Or.inr hg)))))
    have hKg : sigKey g ∈ (c.static_fns ++ c.own_fns).map sigKey := by
      rw [List.map_append]
      exact List.mem_append.mpr (Or.inr (List.mem_map_of_mem sigKey hg))
    have hne_sh : ∀ f ∈ c.shared_fns, sigKey f ≠ sigKey g := by
      intro f hf he
      exact hStOwnKey_notin_sh hKg (he ▸ List.mem_map_of_mem sigKey hf)
    have hne_mut : ∀ f ∈ c.mut_fns, sigKey f ≠ sigKey g := by
      intro f hf he
      exact hStOwnKey_notin_mut hKg (he ▸ List.mem_map_of_mem sigKey hf)
    have hne_own : ∀ f ∈ ownTierFns c, sigKey f ≠ sigKey g := by
      intro f hf he
      have hf2 : f ∈ c.static_fns ++ c.own_fns := List.mem_of_mem_filter hf
      have hfAll : f ∈ classAllFns c := by
        unfold classAllFns
        exact List.mem_append.mpr (Or.inl (List.mem_append.mpr (Or.inl hf2)))
      have hfg : f = g := hinj hfAll hgAll he
      have hpred := List.of_mem_filter hf
      rw [hfg, hdrop] at hpred
      simp at hpred
    have hc0 : (writeClassChunks X c ts).count (sigOpenChunk g) = 0 := by
      rw [count_sig_writeClass, count_sig_flatten, count_sig_flatten, count_sig_flatten,
        sum_sig_zero g c.shared_fns (fun f hf he => hne_sh f hf (sigOpen_inj he)),
        sum_sig_zero g c.mut_fns (fun f hf he => hne_mut f hf (sigOpen_inj he)),
        sum_sig_zero g (ownTierFns c) (fun f hf he => hne_own f hf (sigOpen_inj he))]
    exact List.count_eq_zero.mp hc0

/-- The destructor of the witness class. -/
def fnDrop : Function :=
  { name := "Timer_drop", method := "drop",
    inputs := [("this", { kind := TypeKind.Value, name := "Timer", is_custom := true, is_nullable := false })],
    output := { kind := TypeKind.Value, name := "()", is_custom := false, is_nullable := false } }

/-- A shared (read-only) method of the witness class. -/
def fnShared : Function :=
  { name := "Timer_current_time", method := "current_time",
    inputs := [("this", { kind := TypeKind.Ref, name := "Timer", is_custom := true, is_nullable := false })],
    output := { kind := TypeKind.Value, name := "f64", is_custom := false, is_nullable := false } }

/-- A mutating method of the witness class. -/
def fnMut : Function :=
  { name := "Timer_split", method := "split",
    inputs := [("this", { kind := TypeKind.RefMut, name := "Timer", is_custom := true, is_nullable := false })],
    output := { kind := TypeKind.Value, name := "()", is_custom := false, is_nullable := false } }

/-- A class with one function in each of the four category lists. -/
def clsW : Class :=
  { static_fns := [fnRefReturn], own_fns := [fnDrop],
    shared_fns := [fnShared], mut_fns := [fnMut] }

/-- Witness for C6 at a concrete class with all four categories
populated. -/
theorem C6_tier_structure_witness :
    writeClassChunks "Timer" clsW false =
      sharedTierChunks "Timer" clsW false ++ mutTierChunks "Timer" clsW false
        ++ owningTierChunks "Timer" clsW false ∧
    (writeClassChunks "Timer" clsW false).count (sigOpenChunk fnShared) = 1 :=
  ⟨(C6_tier_structure "Timer" clsW false (by decide) (by decide) (by decide) (by decide)
      (by decide)).1,
   ((C6_tier_structure "Timer" clsW false (by decide) (by decide) (by decide) (by decide)
      (by decide)).2.2.1 fnShared (by decide)).1⟩

end NodeBindGen
